import Mathlib

/-!
# Student table form (`src/form.cpp`): record table, validation, persistence

A shallow embedding of the `Form` class: the table model (`QStandardItemModel`
with six text columns), the view state the slots read and write (current
index, selected rows, the find box), and the data file `./data/data.txt`.

Modelling conventions.

* A `QString` is a sequence of `QChar`, the UTF-16 code units of its text.
  The text is modelled as `List Char`, a list of Unicode characters; a
  character outside the Basic Multilingual Plane takes two `QChar`s (a
  surrogate pair), and `utf16Length` counts `QChar`s as `QString::length()`
  does. Trimming, splitting, comparing and searching give the same result
  on the characters as on the code units, since whitespace and the separators
  are single code units and never part of a surrogate pair.
* The data file is the character sequence the text stream writes and reads.
  A stream over a device opened with `QIODevice::Text` drops every carriage
  return while reading, and `readLine` ends a line at a line feed.
* Message boxes are returned as outcome values next to the new state.
-/

namespace GDOU

/-! ## Strings -/

/-- A `QString`, given by the Unicode characters of its text. -/
abbrev QString := List Char

/-- The number of `QChar`s (UTF-16 code units) a character takes: one inside
the Basic Multilingual Plane, two (a surrogate pair) outside. -/
def utf16Units (c : Char) : Nat :=
  if c.toNat < 0x10000 then 1 else 2

/-- `QString::length()`: the number of `QChar`s (UTF-16 code units). -/
def utf16Length : QString → Nat
  | [] => 0
  | c :: cs => utf16Units c + utf16Length cs

/-- The field delimiter of the data file, the full-width comma U+FF0C
(`line.split("，")`, `values.join("，")`). -/
def delimiter : Char := Char.ofNat 0xFF0C

/-- The line feed written after every row (`out << ... << "\n"`). -/
def lineFeed : Char := Char.ofNat 0x0A

/-- The carriage return, which a text-mode stream drops while reading. -/
def carriageReturn : Char := Char.ofNat 0x0D

/-- `QChar::isSpace`: space, the controls U+0009..U+000D, U+0085, U+00A0 and
the Unicode separators (categories Zs, Zl, Zp). -/
def isSpace (c : Char) : Bool :=
  let u := c.toNat
  u == 0x20 || (0x09 ≤ u && u ≤ 0x0D) || u == 0x85 || u == 0xA0 || u == 0x1680 ||
    (0x2000 ≤ u && u ≤ 0x200A) || u == 0x2028 || u == 0x2029 || u == 0x202F ||
    u == 0x205F || u == 0x3000

/-- `QString::trimmed`: whitespace removed from the start and from the end. -/
def trimmed (s : QString) : QString :=
  ((s.dropWhile isSpace).reverse.dropWhile isSpace).reverse

/-- `QString::split(sep)` for a one-character separator, keeping empty parts:
the pieces between consecutive separators; a string without separator is one
piece (also the empty string). -/
def split (sep : Char) : QString → List QString
  | [] => [[]]
  | c :: cs =>
    if c = sep then [] :: split sep cs
    else
      match split sep cs with
      | [] => [[c]]
      | piece :: pieces => (c :: piece) :: pieces

/-- `QStringList::join(sep)` for a one-character separator. -/
def join (sep : Char) : List QString → QString
  | [] => []
  | [v] => v
  | v :: w :: vs => v ++ sep :: join sep (w :: vs)

/-- `QString::contains(sub, Qt::CaseInsensitive)`: some position of `s` starts
a copy of `sub`, both compared after case folding each `QChar` with `fold`
(Qt's case folding table, a parameter of the model). -/
def contains (fold : Char → Char) (s sub : QString) : Bool :=
  (s.map fold).tails.any fun t => (sub.map fold).isPrefixOf t

/-- Case folding restricted to the ASCII letters, used to run examples. -/
def asciiFold (c : Char) : Char := c.toLower

/-! ## The table model -/

/-- One row of the model: the six text items of the columns
学号, 姓名, 性别, 年龄, 省份, 专业. -/
structure Record where
  id : QString
  name : QString
  gender : QString
  age : QString
  province : QString
  major : QString
  deriving DecidableEq

/-- The number of columns (`model->columnCount()`), fixed by the six header
labels. -/
def columnCount : Nat := 6

/-- The texts of a row, column by column
(`for col < columnCount: values << model->item(row, col)->text()`). -/
def Record.values (r : Record) : List QString :=
  [r.id, r.name, r.gender, r.age, r.province, r.major]

/-- The text of one item of a row (`model->item(row, col)->text()`). -/
def Record.item (r : Record) (col : Nat) : QString :=
  r.values.getD col []

/-- The row built from the split values of a line, one item per value
(`for value : values: items.append(new QStandardItem(value))`); used on
lists of exactly `columnCount` values. -/
def Record.ofValues (values : List QString) : Record :=
  { id := values.getD 0 [], name := values.getD 1 [], gender := values.getD 2 [],
    age := values.getD 3 [], province := values.getD 4 [], major := values.getD 5 [] }

/-- A model index: `none` is the invalid index, `some (row, column)` a cell. -/
abbrev QModelIndex := Option (Nat × Nat)

/-- The row of an index (`QModelIndex::row()`), `-1` for the invalid index. -/
def QModelIndex.row : QModelIndex → Int
  | none => -1
  | some (r, _) => (r : Int)

/-- The form: the table model and the view state the slots use. -/
structure Form where
  /-- rows of `model`, in display order -/
  model : List Record
  /-- the current index of `ui->tableView` -/
  currentIndex : QModelIndex
  /-- the selected rows (`selectionModel()->selectedRows()`) -/
  selectedRows : List Nat
  /-- the text of `ui->FindLineEdit` -/
  findLineEdit : QString
  deriving DecidableEq

/-- `model->rowCount()`. -/
def Form.rowCount (s : Form) : Nat := s.model.length

/-- `model->index(row, column)`: a valid index inside the table, the invalid
index outside. -/
def Form.index (s : Form) (row column : Nat) : QModelIndex :=
  if row < s.rowCount ∧ column < columnCount then some (row, column) else none

/-- Modelled from the spec: the selection behaviour of `ui->tableView`, set in
the form's UI description, which is not among the sources. Following the
spec ("sets selection to that single row", "selection becomes the new last
row"), `setCurrentIndex` makes the given cell current and replaces the
selection by the row of that cell; the invalid index leaves no row selected. -/
def Form.setCurrentIndex (s : Form) (idx : QModelIndex) : Form :=
  { s with
    currentIndex := idx
    selectedRows :=
      match idx with
      | none => []
      | some (r, _) => [r] }

/-- `ui->tableView->clearSelection()`: no row stays selected; the current
index is not touched. -/
def Form.clearSelection (s : Form) : Form :=
  { s with selectedRows := [] }

/-- `model->removeRow(row)`: the row is taken out when it exists; a row
outside the table is refused and nothing changes. -/
def removeRow (row : Nat) (model : List Record) : List Record :=
  if row < model.length then model.eraseIdx row else model

/-- `model->appendRow(items)`. -/
def appendRow (model : List Record) (r : Record) : List Record :=
  model ++ [r]

/-! ## The data file -/

/-- The file `./data/data.txt`: its text, and whether opening it for reading
and for writing succeeds. -/
structure QFile where
  text : QString
  readable : Bool
  writable : Bool
  deriving DecidableEq

/-- What a text-mode stream delivers of the file text: every carriage return
is dropped. -/
def textModeRead (text : QString) : QString :=
  text.filter fun c => c != carriageReturn

/-- `QTextStream::atEnd()`: nothing is left to read. -/
def atEnd (stream : QString) : Bool := stream.isEmpty

/-- `QTextStream::readLine()`: the characters up to the next line feed, which
is consumed and not returned; at the end of the text the rest is the line.
Returns the line and the remaining stream. -/
def readLine : QString → QString × QString
  | [] => ([], [])
  | c :: cs =>
    if c = lineFeed then ([], cs)
    else ((c :: (readLine cs).1), (readLine cs).2)

/-- The reading loop of `loadDataToTableView`
(`while (!in.atEnd()) { line = in.readLine(); values = line.split("，");
if (values.size() == 6) model->appendRow(items); }`), with a bound on the
number of iterations. -/
def loadLoop : Nat → QString → List Record → List Record
  | 0, _, model => model
  | fuel + 1, stream, model =>
    if atEnd stream then model
    else
      let line := (readLine stream).1
      let rest := (readLine stream).2
      let values := split delimiter line
      if values.length = 6 then loadLoop fuel rest (appendRow model (Record.ofValues values))
      else loadLoop fuel rest model

/-- The rows read from a file text: the loop run on the stream over the text,
starting from the empty model. Every iteration consumes a character, so the
length of the stream bounds the number of iterations. -/
def loadRows (text : QString) : List Record :=
  loadLoop (textModeRead text).length (textModeRead text) []

/-- Outcome of `loadDataToTableView`. -/
inductive LoadOutcome where
  /-- warning "无法打开文件 data.txt" -/
  | cannotOpen
  | loaded
  deriving DecidableEq

/-- `Form::loadDataToTableView`: a fresh model; when the file opens, the rows
of its well-formed lines are appended and the current index is set to cell
(0, 0); when it does not open, a warning is shown and the model stays empty. -/
def loadDataToTableView (file : QFile) : Form × LoadOutcome :=
  let fresh : Form := { model := [], currentIndex := none, selectedRows := [], findLineEdit := [] }
  if !file.readable then (fresh, .cannotOpen)
  else
    let s : Form := { fresh with model := loadRows file.text }
    (s.setCurrentIndex (s.index 0 0), .loaded)

/-- The text written by the writing loop of `saveDataToFile`
(`out << values.join("，") << "\n"` for every row). -/
def writeRows : List Record → QString
  | [] => []
  | r :: rs => join delimiter r.values ++ lineFeed :: writeRows rs

/-! ## Validation and saving -/

/-- The warning shown by `isDuplicateOrInvalid`. -/
inductive Warning where
  /-- "学号不能为空！": the id is empty after trimming -/
  | emptyId
  /-- "已存在相同的学号！": `row` carries the same id; the view moves to it -/
  | duplicateId (row : Nat)
  deriving DecidableEq

/-- The scan of `isDuplicateOrInvalid`
(`for row < rowCount: if (row == ignoreRow) continue; if (curId == id) ...`):
the first row other than `ignoreRow` whose id text equals `id`. The counter
`row` is the index of the head of the remaining rows. -/
def findDuplicate (id : QString) (ignoreRow : Nat) : Nat → List Record → Option Nat
  | _, [] => none
  | row, r :: rows =>
    if row = ignoreRow then findDuplicate id ignoreRow (row + 1) rows
    else if r.item 0 = id then some row
    else findDuplicate id ignoreRow (row + 1) rows

/-- `Form::isDuplicateOrInvalid(id, ignoreRow)`: the warning shown, `none`
when the function returns `false`. A duplicate also moves the view to the
row found. -/
def isDuplicateOrInvalid (s : Form) (id : QString) (ignoreRow : Nat) : Form × Option Warning :=
  if (trimmed id).isEmpty then (s, some .emptyId)
  else
    match findDuplicate id ignoreRow 0 s.model with
    | some row => (s.setCurrentIndex (s.index row 0), some (.duplicateId row))
    | none => (s, none)

/-- The checking loop of `saveDataToFile`
(`for row < rowCount: if (isDuplicateOrInvalid(id, row)) return;`): the row at
which the loop returns, the state left by the check and its warning; `none`
when every row passes. The counter `row` is the index of the head of the
remaining rows. -/
def validateLoop (s : Form) : Nat → List Record → Option (Nat × Form × Warning)
  | _, [] => none
  | row, r :: rows =>
    match isDuplicateOrInvalid s (r.item 0) row with
    | (s', some w) => some (row, s', w)
    | (_, none) => validateLoop s (row + 1) rows

/-- The check run by save over the whole table. -/
def validate (s : Form) : Option (Nat × Form × Warning) :=
  validateLoop s 0 s.model

/-- Outcome of `saveDataToFile`. -/
inductive SaveOutcome where
  /-- the check stopped at `row` with warning `w`; nothing is written -/
  | rejected (row : Nat) (w : Warning)
  /-- warning "无法保存数据到文件 data.txt" -/
  | cannotOpen
  /-- information "数据已成功保存到文件 data.txt" -/
  | saved
  deriving DecidableEq

/-- `Form::saveDataToFile`: the check first; then the file is opened for
writing, which empties it, and every row is written. -/
def saveDataToFile (s : Form) (file : QFile) : Form × QFile × SaveOutcome :=
  match validate s with
  | some (row, s', w) => (s', file, .rejected row w)
  | none =>
    if !file.writable then (s, file, .cannotOpen)
    else (s, { file with text := writeRows s.model }, .saved)

/-! ## Find -/

/-- Outcome of `findDataSLOT`. -/
inductive FindOutcome where
  /-- warning "请输入要查找的内容" -/
  | emptyQuery
  /-- information "找到匹配的行: %1" with the matched text -/
  | found (row : Nat) (values : QString)
  /-- warning "未找到该对象" -/
  | notFound
  deriving DecidableEq

/-- One search loop of `findDataSLOT` over column `col`
(`for row < rowCount: values = item(row, col)->text();
if (values.contains(searchText, Qt::CaseInsensitive)) ... break;`): the first
matching row with its text. The counter `row` is the index of the head of
the remaining rows. -/
def findLoop (fold : Char → Char) (searchText : QString) (col : Nat) :
    Nat → List Record → Option (Nat × QString)
  | _, [] => none
  | row, r :: rows =>
    if contains fold (r.item col) searchText then some (row, r.item col)
    else findLoop fold searchText col (row + 1) rows

/-- `Form::findDataSLOT`: the trimmed text of the find box is searched in
column 0 when its `length()` exceeds 5, in column 1 otherwise; a match becomes the
current index, no match clears the find box. -/
def findDataSLOT (fold : Char → Char) (s : Form) : Form × FindOutcome :=
  let searchText := trimmed s.findLineEdit
  if searchText.isEmpty then (s, .emptyQuery)
  else if utf16Length searchText > 5 then
    match findLoop fold searchText 0 0 s.model with
    | some (row, values) => (s.setCurrentIndex (s.index row 0), .found row values)
    | none => ({ s with findLineEdit := [] }, .notFound)
  else
    match findLoop fold searchText 1 0 s.model with
    | some (row, values) => (s.setCurrentIndex (s.index row 1), .found row values)
    | none => ({ s with findLineEdit := [] }, .notFound)

/-! ## Delete and add -/

/-- Outcome of `deleteDataSLOT`. -/
inductive DeleteOutcome where
  /-- warning "请先选择要删除的行" -/
  | noSelection
  | done
  deriving DecidableEq

/-- The selected rows in descending order
(`std::sort(..., a.row() > b.row())`). Rows are plain numbers, so the order
among equal rows cannot be observed and the sorted list is determined. -/
def sortDescending (rows : List Nat) : List Nat :=
  rows.insertionSort (· ≥ ·)

/-- The removal loop (`for index : selectedLine: model->removeRow(index.row())`). -/
def removeRows (rows : List Nat) (model : List Record) : List Record :=
  rows.foldl (fun m row => removeRow row m) model

/-- `Form::deleteDataSLOT`: with nothing selected and no current row, a
warning; otherwise the selected rows are removed in descending order, or,
when no row is selected, the current row; afterwards the last row becomes
current, or the selection is cleared when no row is left. -/
def deleteDataSLOT (s : Form) : Form × DeleteOutcome :=
  let selectedLine := s.selectedRows
  let select_row := s.currentIndex.row
  if selectedLine.isEmpty ∧ select_row < 0 then (s, .noSelection)
  else
    let model1 :=
      if !selectedLine.isEmpty then removeRows (sortDescending selectedLine) s.model
      else if 0 ≤ select_row ∧ select_row < (s.rowCount : Int) then
        removeRow select_row.toNat s.model
      else s.model
    let s1 : Form := { s with model := model1 }
    if s1.rowCount > 0 then (s1.setCurrentIndex (s1.index (s1.rowCount - 1) 0), .done)
    else (s1.clearSelection, .done)

/-- `Form::addDataSLOT`: an empty row is appended and becomes current. -/
def addDataSLOT (s : Form) : Form :=
  let s1 : Form := { s with model := appendRow s.model (Record.ofValues (List.replicate columnCount [])) }
  s1.setCurrentIndex (s1.index (s1.rowCount - 1) 0)

/-! ## Reference notions used to state the properties -/

/-- The lines of a text: the pieces ended by a line feed, followed by the
last piece when the text does not end with a line feed. -/
def lines : QString → List QString
  | [] => []
  | c :: cs =>
    if c = lineFeed then [] :: lines cs
    else
      match lines cs with
      | [] => [[c]]
      | l :: ls => (c :: l) :: ls

/-- A line is well formed when it splits on the delimiter into exactly six
fields. -/
def wellFormed (line : QString) : Bool :=
  (split delimiter line).length == 6

/-- The row a line contributes to the table: one row for a well-formed line,
nothing otherwise. -/
def rowOfLine (line : QString) : Option Record :=
  if wellFormed line then some (Record.ofValues (split delimiter line)) else none

/-- An id is blank when it is empty or consists of whitespace only. -/
def blank (id : QString) : Prop := ∀ c ∈ id, isSpace c = true

/-- The ids of a table pass validation: none is empty after trimming and no
two rows carry the same id text. -/
def idsValid (model : List Record) : Prop :=
  (∀ r ∈ model, trimmed r.id ≠ []) ∧ (model.map Record.id).Nodup

/-- No field of the table contains the delimiter, a line feed or a carriage
return. -/
def fieldsClean (model : List Record) : Prop :=
  ∀ r ∈ model, ∀ v ∈ r.values, delimiter ∉ v ∧ lineFeed ∉ v ∧ carriageReturn ∉ v

/-- Row `c` carries the same id text as row `r`. -/
def sameId (model : List Record) (c r : Nat) : Prop :=
  ∃ rc rr, model[c]? = some rc ∧ model[r]? = some rr ∧ rc.id = rr.id

/-- Row `r` has a blank id. -/
def blankAt (model : List Record) (r : Nat) : Prop :=
  ∃ rr, model[r]? = some rr ∧ trimmed rr.id = []

/-- Row `r` shares its id text with another row. -/
def duplicatedAt (model : List Record) (r : Nat) : Prop :=
  ∃ c, c ≠ r ∧ sameId model c r

/-- The records whose index is not among `rows`, in their original order;
`k` is the index of the head of the list. -/
def keepFrom (rows : List Nat) : Nat → List Record → List Record
  | _, [] => []
  | k, r :: rs => if k ∈ rows then keepFrom rows (k + 1) rs else r :: keepFrom rows (k + 1) rs

/-- The subsequence of the records whose index is not among `rows`: the
records are numbered from 0, those with a number in `rows` are dropped, the
others keep their order. -/
def unselected (rows : List Nat) (model : List Record) : List Record :=
  (model.enum.filter fun p => decide (p.1 ∉ rows)).map Prod.snd

/-- The column the length heuristic of find picks: ids (0) for a query of
more than 5 UTF-16 code units, names (1) otherwise. -/
def searchColumn (query : QString) : Nat :=
  if utf16Length query > 5 then 0 else 1

/-- Every character of the text lies in the Basic Multilingual Plane. -/
def inBMP (s : QString) : Prop := ∀ c ∈ s, c.toNat < 0x10000

/-- A query of three characters outside the Basic Multilingual Plane
(U+1F600 three times), six UTF-16 code units long. -/
def wideQuery : QString :=
  [Char.ofNat 0x1F600, Char.ofNat 0x1F600, Char.ofNat 0x1F600]

/-- The text `v` contains the query as a substring when case is ignored: the
folded query is a contiguous part of the folded text. -/
def matchesQuery (fold : Char → Char) (query v : QString) : Prop :=
  query.map fold <:+: v.map fold

/-- Row `i` is the first row whose text `v` in column `col` matches the
query. -/
def firstMatch (fold : Char → Char) (query : QString) (col : Nat) (model : List Record)
    (i : Nat) (v : QString) : Prop :=
  ∃ ri, model[i]? = some ri ∧ v = ri.item col ∧ matchesQuery fold query v ∧
    ∀ k rk, k < i → model[k]? = some rk → ¬ matchesQuery fold query (rk.item col)

/-- The table of the running example, rows S001 Alice and S002 Bob. -/
def exampleStore : List Record :=
  [ { id := "S001".toList, name := "Alice".toList, gender := "F".toList,
      age := "20".toList, province := "GD".toList, major := "CS".toList },
    { id := "S002".toList, name := "Bob".toList, gender := "M".toList,
      age := "21".toList, province := "GX".toList, major := "EE".toList } ]

/-- A data file of twelve lines: ten well-formed ones, one with five fields
(line 3) and one with seven fields (line 8). -/
def sampleFile : QFile :=
  { text := ("01，a，F，20，GD，CS\n02，b，M，21，GX，EE\n03，c，F，20，GD\n04，d，M，22，HN，CS\n" ++
      "05，e，F，20，GD，CS\n06，f，M，21，GX，EE\n07，g，F，20，GD，CS\n08，h，M，22，HN，CS，x\n" ++
      "09，i，F，20，GD，CS\n10，j，M，21，GX，EE\n11，k，F，20，GD，CS\n12，l，M，22，HN，CS\n").toList
    readable := true
    writable := true }

/-- A table of six rows with ids 0 to 5. -/
def sixRows : List Record :=
  [⟨['0'], [], [], [], [], []⟩, ⟨['1'], [], [], [], [], []⟩, ⟨['2'], [], [], [], [], []⟩,
    ⟨['3'], [], [], [], [], []⟩, ⟨['4'], [], [], [], [], []⟩, ⟨['5'], [], [], [], [], []⟩]

/-- A form over a table with no current index, no selection and an empty
find box. -/
def formOf (model : List Record) : Form :=
  { model := model, currentIndex := none, selectedRows := [], findLineEdit := [] }

/-! ## Strings: lemmas -/

theorem dropWhile_all_of_all (p : Char → Bool) :
    ∀ s : QString, (∀ x ∈ s.dropWhile p, p x = true) → ∀ x ∈ s, p x = true
  | [], _ => by simp
  | a :: t, h => by
    by_cases ha : p a = true
    · have h2 : ∀ x ∈ t.dropWhile p, p x = true := by
        simpa [List.dropWhile_cons, ha] using h
      intro x hx
      rcases List.mem_cons.mp hx with rfl | hx
      · exact ha
      · exact dropWhile_all_of_all p t h2 x hx
    · have h2 := h a (by simp [List.dropWhile_cons, ha])
      exact absurd h2 ha

theorem trimmed_eq_nil_iff (s : QString) : trimmed s = [] ↔ blank s := by
  unfold trimmed blank
  rw [List.reverse_eq_nil_iff, List.dropWhile_eq_nil_iff]
  constructor
  · intro h
    apply dropWhile_all_of_all isSpace s
    intro x hx
    exact h x (List.mem_reverse.mpr hx)
  · intro h x hx
    exact h x ((List.dropWhile_sublist isSpace).subset (List.mem_reverse.mp hx))

theorem split_of_not_mem (sep : Char) : ∀ s : QString, sep ∉ s → split sep s = [s]
  | [], _ => rfl
  | c :: cs, h => by
    have hc : c ≠ sep := fun e => h (by simp [e])
    have hcs : sep ∉ cs := fun e => h (List.mem_cons_of_mem _ e)
    simp [split, hc, split_of_not_mem sep cs hcs]

theorem split_append_sep (sep : Char) (b : QString) :
    ∀ a : QString, sep ∉ a → split sep (a ++ sep :: b) = a :: split sep b
  | [], _ => by simp [split]
  | c :: cs, h => by
    have hc : c ≠ sep := fun e => h (by simp [e])
    have hcs : sep ∉ cs := fun e => h (List.mem_cons_of_mem _ e)
    simp [split, hc, split_append_sep sep b cs hcs]

theorem split_join (sep : Char) :
    ∀ vs : List QString, vs ≠ [] → (∀ v ∈ vs, sep ∉ v) → split sep (join sep vs) = vs
  | [], h, _ => absurd rfl h
  | [v], _, h => by
    simpa [join] using split_of_not_mem sep v (h v (by simp))
  | v :: w :: vs, _, h => by
    have hv : sep ∉ v := h v (by simp)
    have ih := split_join sep (w :: vs) (by simp) (fun x hx => h x (List.mem_cons_of_mem _ hx))
    simp only [join]
    rw [split_append_sep sep _ v hv, ih]

theorem not_mem_join (x sep : Char) (hx : x ≠ sep) :
    ∀ vs : List QString, (∀ v ∈ vs, x ∉ v) → x ∉ join sep vs
  | [], _ => by simp [join]
  | [v], h => by simpa [join] using h v (by simp)
  | v :: w :: vs, h => by
    have ih := not_mem_join x sep hx (w :: vs) (fun y hy => h y (List.mem_cons_of_mem _ hy))
    have hv := h v (by simp)
    simp only [join, List.mem_append, List.mem_cons, not_or]
    exact ⟨hv, hx, ih⟩

/-! ## Reading lines: lemmas -/

theorem lines_eq_readLine : ∀ s : QString, s ≠ [] →
    lines s = (readLine s).1 :: lines (readLine s).2
  | [], h => absurd rfl h
  | c :: cs, _ => by
    by_cases hc : c = lineFeed
    · simp [lines, readLine, hc]
    · by_cases hcs : cs = []
      · subst hcs
        simp [lines, readLine, hc]
      · have ih := lines_eq_readLine cs hcs
        simp [lines, readLine, hc, ih]

theorem readLine_rest_length : ∀ s : QString, s ≠ [] → (readLine s).2.length < s.length
  | [], h => absurd rfl h
  | c :: cs, _ => by
    by_cases hc : c = lineFeed
    · simp [readLine, hc]
    · by_cases hcs : cs = []
      · subst hcs
        simp [readLine, hc]
      · have ih := readLine_rest_length cs hcs
        simp only [readLine, hc, if_false, List.length_cons]
        omega

theorem lines_append_lineFeed (rest : QString) :
    ∀ a : QString, lineFeed ∉ a → lines (a ++ lineFeed :: rest) = a :: lines rest
  | [], _ => by simp [lines]
  | c :: cs, h => by
    have hc : c ≠ lineFeed := fun e => h (by simp [e])
    have hcs : lineFeed ∉ cs := fun e => h (List.mem_cons_of_mem _ e)
    simp [lines, hc, lines_append_lineFeed rest cs hcs]

theorem loadLoop_eq : ∀ (fuel : Nat) (stream : QString) (model : List Record),
    stream.length ≤ fuel →
    loadLoop fuel stream model = model ++ (lines stream).filterMap rowOfLine
  | 0, stream, model, h => by
    have : stream = [] := List.length_eq_zero.mp (Nat.le_zero.mp h)
    subst this
    simp [loadLoop, lines]
  | fuel + 1, stream, model, h => by
    by_cases hs : stream = []
    · subst hs
      simp [loadLoop, atEnd, lines]
    · have hlen := readLine_rest_length stream hs
      have hfuel : (readLine stream).2.length ≤ fuel := by omega
      have hat : atEnd stream = false := by
        cases stream with
        | nil => exact absurd rfl hs
        | cons c cs => rfl
      rw [lines_eq_readLine stream hs]
      by_cases hwf : (split delimiter (readLine stream).1).length = 6
      · have hw : wellFormed (readLine stream).1 = true := by simp [wellFormed, hwf]
        simp only [loadLoop, hat, Bool.false_eq_true, if_false, hwf, if_true]
        rw [loadLoop_eq fuel _ _ hfuel]
        simp [List.filterMap_cons, rowOfLine, hw, appendRow]
      · have hw : wellFormed (readLine stream).1 = false := by simp [wellFormed, hwf]
        simp only [loadLoop, hat, Bool.false_eq_true, if_false, hwf]
        rw [loadLoop_eq fuel _ _ hfuel]
        simp [List.filterMap_cons, rowOfLine, hw]

theorem loadRows_eq (text : QString) :
    loadRows text = (lines (textModeRead text)).filterMap rowOfLine := by
  unfold loadRows
  rw [loadLoop_eq _ _ _ (le_refl _)]
  simp

theorem filterMap_rowOfLine_eq (ls : List QString) :
    ls.filterMap rowOfLine
      = (ls.filter wellFormed).map fun l => Record.ofValues (split delimiter l) := by
  induction ls with
  | nil => rfl
  | cons l ls ih =>
    by_cases hw : wellFormed l = true
    · simp [List.filterMap_cons, rowOfLine, hw, ih]
    · simp [List.filterMap_cons, rowOfLine, hw, ih]

theorem ofValues_values (r : Record) : Record.ofValues r.values = r := by
  cases r
  rfl

theorem values_ofValues (vs : List QString) (h : vs.length = 6) :
    (Record.ofValues vs).values = vs := by
  rcases vs with _ | ⟨a, _ | ⟨b, _ | ⟨c, _ | ⟨d, _ | ⟨e, _ | ⟨f, _ | ⟨g, t⟩⟩⟩⟩⟩⟩⟩ <;>
    simp at h
  rfl

theorem values_length (r : Record) : r.values.length = 6 := rfl

theorem item_zero (r : Record) : r.item 0 = r.id := rfl

theorem lineFeed_ne_delimiter : lineFeed ≠ delimiter := by decide

theorem carriageReturn_ne_delimiter : carriageReturn ≠ delimiter := by decide

theorem carriageReturn_ne_lineFeed : carriageReturn ≠ lineFeed := by decide

theorem rowOfLine_join (r : Record) (h : ∀ v ∈ r.values, delimiter ∉ v) :
    rowOfLine (join delimiter r.values) = some r := by
  have hs : split delimiter (join delimiter r.values) = r.values :=
    split_join delimiter r.values (by simp [Record.values]) h
  simp [rowOfLine, wellFormed, hs, values_length, ofValues_values]

theorem lines_writeRows : ∀ model : List Record,
    (∀ r ∈ model, ∀ v ∈ r.values, lineFeed ∉ v) →
    lines (writeRows model) = model.map fun r => join delimiter r.values
  | [], _ => rfl
  | r :: rs, h => by
    have hr : lineFeed ∉ join delimiter r.values :=
      not_mem_join lineFeed delimiter lineFeed_ne_delimiter r.values (h r (by simp))
    have ih := lines_writeRows rs (fun x hx => h x (List.mem_cons_of_mem _ hx))
    simp only [writeRows, List.map_cons]
    rw [lines_append_lineFeed _ _ hr, ih]

theorem textModeRead_writeRows : ∀ model : List Record,
    (∀ r ∈ model, ∀ v ∈ r.values, carriageReturn ∉ v) →
    textModeRead (writeRows model) = writeRows model
  | [], _ => rfl
  | r :: rs, h => by
    have hr : carriageReturn ∉ join delimiter r.values :=
      not_mem_join carriageReturn delimiter carriageReturn_ne_delimiter r.values (h r (by simp))
    have ih := textModeRead_writeRows rs (fun x hx => h x (List.mem_cons_of_mem _ hx))
    unfold textModeRead at ih ⊢
    simp only [writeRows, List.filter_append, List.filter_cons]
    rw [ih, List.filter_eq_self.mpr]
    · have : (lineFeed != carriageReturn) = true := by decide
      simp [this]
    · intro c hc
      have : c ≠ carriageReturn := fun e => hr (e ▸ hc)
      simpa using this

theorem filterMap_rowOfLine_joined : ∀ model : List Record,
    (∀ r ∈ model, ∀ v ∈ r.values, delimiter ∉ v) →
    (model.map fun r => join delimiter r.values).filterMap rowOfLine = model
  | [], _ => rfl
  | r :: rs, h => by
    have ih := filterMap_rowOfLine_joined rs (fun x hx => h x (List.mem_cons_of_mem _ hx))
    simp only [List.map_cons, List.filterMap_cons, rowOfLine_join r (h r (by simp))]
    rw [ih]

theorem loadRows_writeRows (model : List Record) (h : fieldsClean model) :
    loadRows (writeRows model) = model := by
  rw [loadRows_eq, textModeRead_writeRows model (fun r hr v hv => (h r hr v hv).2.2),
    lines_writeRows model (fun r hr v hv => (h r hr v hv).2.1)]
  exact filterMap_rowOfLine_joined model (fun r hr v hv => (h r hr v hv).1)

theorem loadDataToTableView_model (file : QFile) (hr : file.readable = true) :
    (loadDataToTableView file).1.model = loadRows file.text := by
  simp [loadDataToTableView, hr, Form.setCurrentIndex]

/-! ## Validation: lemmas -/

theorem findDuplicate_eq_none (id : QString) (ig : Nat) : ∀ (rows : List Record) (k : Nat),
    findDuplicate id ig k rows = none ↔
      ∀ j rj, rows[j]? = some rj → k + j ≠ ig → rj.id ≠ id
  | [], k => by simp [findDuplicate]
  | r :: rows, k => by
    have ih := findDuplicate_eq_none id ig rows (k + 1)
    unfold findDuplicate
    by_cases hk : k = ig
    · subst hk
      simp only [if_true]
      rw [ih]
      constructor
      · intro h j rj hj hne
        cases j with
        | zero => exact absurd rfl hne
        | succ j =>
          refine h j rj (by simpa using hj) ?_
          omega
      · intro h j rj hj hne
        refine h (j + 1) rj (by simpa using hj) ?_
        omega
    · simp only [hk, if_false, item_zero]
      by_cases hid : r.id = id
      · simp only [hid, if_true]
        constructor
        · intro h
          exact absurd h (by simp)
        · intro h
          exact absurd hid (h 0 r (by simp) (by simpa using hk))
      · simp only [hid, if_false]
        rw [ih]
        constructor
        · intro h j rj hj hne
          cases j with
          | zero =>
            have : r = rj := by simpa using hj
            exact this ▸ hid
          | succ j =>
            refine h j rj (by simpa using hj) ?_
            omega
        · intro h j rj hj hne
          refine h (j + 1) rj (by simpa using hj) ?_
          omega

theorem findDuplicate_eq_some (id : QString) (ig : Nat) : ∀ (rows : List Record) (k c : Nat),
    findDuplicate id ig k rows = some c →
      ∃ j rj, c = k + j ∧ rows[j]? = some rj ∧ c ≠ ig ∧ rj.id = id ∧
        ∀ i ri, i < j → rows[i]? = some ri → k + i ≠ ig → ri.id ≠ id
  | [], k, c => by simp [findDuplicate]
  | r :: rows, k, c => by
    have ih := findDuplicate_eq_some id ig rows (k + 1) c
    unfold findDuplicate
    by_cases hk : k = ig
    · subst hk
      simp only [if_true]
      intro h
      obtain ⟨j, rj, hc, hj, hne, hid, hmin⟩ := ih h
      refine ⟨j + 1, rj, by omega, by simpa using hj, hne, hid, ?_⟩
      intro i ri hi hri hik
      cases i with
      | zero => exact absurd rfl hik
      | succ i =>
        refine hmin i ri (by omega) (by simpa using hri) ?_
        omega
    · simp only [hk, if_false, item_zero]
      by_cases hid : r.id = id
      · simp only [hid, if_true]
        intro h
        have hc : k = c := by simpa using h
        refine ⟨0, r, by omega, by simp, by omega, hid, ?_⟩
        intro i ri hi
        omega
      · simp only [hid, if_false]
        intro h
        obtain ⟨j, rj, hc, hj, hne, hid2, hmin⟩ := ih h
        refine ⟨j + 1, rj, by omega, by simpa using hj, hne, hid2, ?_⟩
        intro i ri hi hri hik
        cases i with
        | zero =>
          have : r = ri := by simpa using hri
          exact this ▸ hid
        | succ i =>
          refine hmin i ri (by omega) (by simpa using hri) ?_
          omega

theorem isDuplicateOrInvalid_eq_none (s : Form) (id : QString) (ig : Nat) :
    (isDuplicateOrInvalid s id ig).2 = none ↔
      trimmed id ≠ [] ∧ ∀ c rc, s.model[c]? = some rc → c ≠ ig → rc.id ≠ id := by
  unfold isDuplicateOrInvalid
  by_cases ht : trimmed id = []
  · simp [ht]
  · have hne : (trimmed id).isEmpty = false := by
      cases h : trimmed id with
      | nil => exact absurd h ht
      | cons a t => rfl
    simp only [hne, Bool.false_eq_true, if_false]
    cases hf : findDuplicate id ig 0 s.model with
    | none =>
      have := (findDuplicate_eq_none id ig s.model 0).mp hf
      simp only [true_iff]
      refine ⟨ht, fun c rc hc hne => this c rc hc (by simpa using hne)⟩
    | some c =>
      refine ⟨fun h => absurd h (by simp), ?_⟩
      rintro ⟨_, hall⟩
      have hnone := (findDuplicate_eq_none id ig s.model 0).mpr
        (fun j rj hj hne => hall j rj hj (by simpa using hne))
      rw [hf] at hnone
      exact absurd hnone (by simp)

theorem isDuplicateOrInvalid_eq_some (s s1 : Form) (id : QString) (ig : Nat) (w : Warning)
    (h : isDuplicateOrInvalid s id ig = (s1, some w)) :
    (w = .emptyId ∧ trimmed id = [] ∧ s1 = s) ∨
      ∃ c rc, w = .duplicateId c ∧ trimmed id ≠ [] ∧ c ≠ ig ∧ s.model[c]? = some rc ∧
        rc.id = id ∧ (∀ i ri, i < c → s.model[i]? = some ri → i ≠ ig → ri.id ≠ id) ∧
        s1 = s.setCurrentIndex (some (c, 0)) := by
  unfold isDuplicateOrInvalid at h
  by_cases ht : trimmed id = []
  · left
    simp only [ht, List.isEmpty_nil, if_true, Prod.mk.injEq, Option.some.injEq] at h
    exact ⟨h.2.symm, ht, h.1.symm⟩
  · right
    have hne : (trimmed id).isEmpty = false := by
      cases h2 : trimmed id with
      | nil => exact absurd h2 ht
      | cons a t => rfl
    simp only [hne, Bool.false_eq_true, if_false] at h
    cases hf : findDuplicate id ig 0 s.model with
    | none =>
      rw [hf] at h
      simp at h
    | some c =>
      rw [hf] at h
      simp only [Prod.mk.injEq, Option.some.injEq] at h
      obtain ⟨j, rj, hc, hj, hcig, hid, hmin⟩ := findDuplicate_eq_some id ig s.model 0 c hf
      have hcj : c = j := by omega
      subst hcj
      have hlt : c < s.model.length := by
        rcases List.getElem?_eq_some.mp hj with ⟨hl, _⟩
        exact hl
      have hidx : s.index c 0 = some (c, 0) := by
        simp [Form.index, Form.rowCount, hlt, columnCount]
      refine ⟨c, rj, h.2.symm, ht, hcig, hj, hid, ?_, ?_⟩
      · intro i ri hi hri hik
        exact hmin i ri hi hri (by simpa using hik)
      · rw [← h.1, hidx]

theorem isDuplicateOrInvalid_model (s : Form) (id : QString) (ig : Nat) :
    (isDuplicateOrInvalid s id ig).1.model = s.model := by
  unfold isDuplicateOrInvalid
  split
  · rfl
  · split <;> rfl

theorem validateLoop_eq_none (s : Form) : ∀ (rows : List Record) (k : Nat),
    validateLoop s k rows = none ↔
      ∀ j rj, rows[j]? = some rj → (isDuplicateOrInvalid s rj.id (k + j)).2 = none
  | [], k => by simp [validateLoop]
  | r :: rows, k => by
    have ih := validateLoop_eq_none s rows (k + 1)
    unfold validateLoop
    rw [item_zero]
    cases hd : isDuplicateOrInvalid s r.id k with
    | mk s1 ow =>
      cases ow with
      | some w =>
        refine ⟨fun h => absurd h (by simp), ?_⟩
        intro h
        have := h 0 r (by simp)
        rw [Nat.add_zero, hd] at this
        exact absurd this (by simp)
      | none =>
        simp only
        rw [ih]
        constructor
        · intro h j rj hj
          cases j with
          | zero =>
            have hr : r = rj := by simpa using hj
            subst hr
            rw [Nat.add_zero, hd]
          | succ j =>
            have := h j rj (by simpa using hj)
            rwa [show k + 1 + j = k + (j + 1) by omega] at this
        · intro h j rj hj
          have := h (j + 1) rj (by simpa using hj)
          rwa [show k + (j + 1) = k + 1 + j by omega] at this

theorem validateLoop_eq_some (s : Form) : ∀ (rows : List Record) (k row : Nat) (s1 : Form)
    (w : Warning), validateLoop s k rows = some (row, s1, w) →
      ∃ j rj, row = k + j ∧ rows[j]? = some rj ∧
        isDuplicateOrInvalid s rj.id row = (s1, some w) ∧
        ∀ i ri, i < j → rows[i]? = some ri → (isDuplicateOrInvalid s ri.id (k + i)).2 = none
  | [], k, row, s1, w => by simp [validateLoop]
  | r :: rows, k, row, s1, w => by
    have ih := validateLoop_eq_some s rows (k + 1) row s1 w
    unfold validateLoop
    rw [item_zero]
    cases hd : isDuplicateOrInvalid s r.id k with
    | mk s2 ow =>
      cases ow with
      | some w2 =>
        simp only [Option.some.injEq, Prod.mk.injEq]
        rintro ⟨rfl, rfl, rfl⟩
        refine ⟨0, r, by omega, by simp, hd, ?_⟩
        intro i ri hi
        omega
      | none =>
        simp only
        intro h
        obtain ⟨j, rj, hrow, hj, hdup, hmin⟩ := ih h
        refine ⟨j + 1, rj, by omega, by simpa using hj, hdup, ?_⟩
        intro i ri hi hri
        cases i with
        | zero =>
          have hr : r = ri := by simpa using hri
          subst hr
          rw [Nat.add_zero, hd]
        | succ i =>
          have := hmin i ri (by omega) (by simpa using hri)
          rwa [show k + 1 + i = k + (i + 1) by omega] at this

theorem check_eq_none_iff (s : Form) (r : Nat) (rr : Record) (hr : s.model[r]? = some rr) :
    (isDuplicateOrInvalid s rr.id r).2 = none ↔
      ¬ blankAt s.model r ∧ ¬ duplicatedAt s.model r := by
  rw [isDuplicateOrInvalid_eq_none]
  constructor
  · rintro ⟨hb, hd⟩
    refine ⟨?_, ?_⟩
    · rintro ⟨r2, h2, hb2⟩
      rw [hr] at h2
      cases h2
      exact hb hb2
    · rintro ⟨c, hc, rc, r2, hrc, h2, hid⟩
      rw [hr] at h2
      cases h2
      exact hd c rc hrc hc hid
  · rintro ⟨hb, hd⟩
    refine ⟨fun hb2 => hb ⟨rr, hr, hb2⟩, ?_⟩
    intro c rc hrc hc hid
    exact hd ⟨c, hc, rc, rr, hrc, hr, hid⟩

theorem validate_eq_none_iff (s : Form) :
    validate s = none ↔ ∀ r, ¬ blankAt s.model r ∧ ¬ duplicatedAt s.model r := by
  unfold validate
  rw [validateLoop_eq_none]
  constructor
  · intro h r
    cases hr : s.model[r]? with
    | none =>
      refine ⟨?_, ?_⟩
      · rintro ⟨r2, h2, _⟩
        rw [hr] at h2
        cases h2
      · rintro ⟨c, _, rc, r2, _, h2, _⟩
        rw [hr] at h2
        cases h2
    | some rr =>
      have := h r rr hr
      rw [Nat.zero_add] at this
      exact (check_eq_none_iff s r rr hr).mp this
  · intro h j rj hj
    rw [Nat.zero_add]
    exact (check_eq_none_iff s j rj hj).mpr (h j)

theorem validate_eq_some (s s1 : Form) (r : Nat) (w : Warning)
    (h : validate s = some (r, s1, w)) :
    (∀ k, k < r → ¬ blankAt s.model k ∧ ¬ duplicatedAt s.model k) ∧
      ((w = .emptyId ∧ blankAt s.model r ∧ s1 = s) ∨
        ∃ c, w = .duplicateId c ∧ ¬ blankAt s.model r ∧ c ≠ r ∧ sameId s.model c r ∧
          (∀ i, i < c → i ≠ r → ¬ sameId s.model i r) ∧
          s1 = s.setCurrentIndex (some (c, 0))) := by
  unfold validate at h
  obtain ⟨j, rj, hrow, hj, hdup, hmin⟩ := validateLoop_eq_some s s.model 0 r s1 w h
  have hrj : r = j := by omega
  subst hrj
  refine ⟨?_, ?_⟩
  · intro k hk
    have hlt : k < s.model.length := by
      rcases List.getElem?_eq_some.mp hj with ⟨hl, _⟩
      omega
    have hk2 : s.model[k]? = some s.model[k] := List.getElem?_eq_getElem hlt
    have := hmin k _ hk hk2
    rw [Nat.zero_add] at this
    exact (check_eq_none_iff s k _ hk2).mp this
  · rcases isDuplicateOrInvalid_eq_some s s1 rj.id r w hdup with
      ⟨hw, hb, hs⟩ | ⟨c, rc, hw, hb, hc, hrc, hid, hfirst, hs⟩
    · exact Or.inl ⟨hw, ⟨rj, hj, hb⟩, hs⟩
    · refine Or.inr ⟨c, hw, ?_, hc, ⟨rc, rj, hrc, hj, hid⟩, ?_, hs⟩
      · rintro ⟨r2, h2, hb2⟩
        rw [hj] at h2
        cases h2
        exact hb hb2
      · rintro i hi hir ⟨ri, r2, hri, h2, hid2⟩
        rw [hj] at h2
        cases h2
        exact hfirst i ri hi hri hir hid2

theorem validate_model (s s1 : Form) (r : Nat) (w : Warning)
    (h : validate s = some (r, s1, w)) : s1.model = s.model := by
  rcases (validate_eq_some s s1 r w h).2 with ⟨_, _, hs⟩ | ⟨c, _, _, _, _, _, hs⟩
  · rw [hs]
  · rw [hs]
    rfl

theorem no_blankAt_iff (model : List Record) :
    (∀ r, ¬ blankAt model r) ↔ ∀ rr ∈ model, trimmed rr.id ≠ [] := by
  constructor
  · intro h rr hrr hb
    obtain ⟨n, hn⟩ := List.mem_iff_getElem?.mp hrr
    exact h n ⟨rr, hn, hb⟩
  · rintro h r ⟨rr, hr, hb⟩
    exact h rr (List.mem_iff_getElem?.mpr ⟨r, hr⟩) hb

theorem no_duplicatedAt_iff (model : List Record) :
    (∀ r, ¬ duplicatedAt model r) ↔ (model.map Record.id).Nodup := by
  rw [List.nodup_iff_getElem?_ne_getElem?]
  constructor
  · intro h i j hij hj heq
    rw [List.length_map] at hj
    have hi : i < model.length := by omega
    rw [List.getElem?_map, List.getElem?_map, List.getElem?_eq_getElem hi,
      List.getElem?_eq_getElem hj] at heq
    simp only [Option.map_some', Option.some.injEq] at heq
    exact h j ⟨i, by omega, model[i], model[j], List.getElem?_eq_getElem hi,
      List.getElem?_eq_getElem hj, heq⟩
  · rintro h r ⟨c, hc, rc, rr, hrc, hrr, hid⟩
    have hcl : c < model.length := (List.getElem?_eq_some.mp hrc).1
    have hrl : r < model.length := (List.getElem?_eq_some.mp hrr).1
    have key : (model.map Record.id)[c]? = (model.map Record.id)[r]? := by
      rw [List.getElem?_map, List.getElem?_map, hrc, hrr]
      simp [hid]
    rcases Nat.lt_or_gt_of_ne hc with hlt | hgt
    · exact h c r hlt (by simpa using hrl) key
    · exact h r c hgt (by simpa using hcl) key.symm

theorem validate_eq_none_iff_idsValid (s : Form) : validate s = none ↔ idsValid s.model := by
  rw [validate_eq_none_iff, idsValid, ← no_blankAt_iff, ← no_duplicatedAt_iff]
  constructor
  · intro h
    exact ⟨fun r => (h r).1, fun r => (h r).2⟩
  · intro h r
    exact ⟨h.1 r, h.2 r⟩

theorem saveDataToFile_of_valid (s : Form) (file : QFile) (h : validate s = none) :
    saveDataToFile s file =
      if file.writable then (s, { file with text := writeRows s.model }, .saved)
      else (s, file, .cannotOpen) := by
  unfold saveDataToFile
  rw [h]
  cases file.writable <;> rfl

theorem saveDataToFile_of_invalid (s s1 : Form) (file : QFile) (r : Nat) (w : Warning)
    (h : validate s = some (r, s1, w)) :
    saveDataToFile s file = (s1, file, .rejected r w) := by
  unfold saveDataToFile
  rw [h]

theorem sameId_symm (model : List Record) (c r : Nat) (h : sameId model c r) :
    sameId model r c := by
  obtain ⟨rc, rr, hc, hr, hid⟩ := h
  exact ⟨rr, rc, hr, hc, hid.symm⟩

theorem no_duplicatedAt_iff_pairwise (model : List Record) :
    (∀ r, ¬ duplicatedAt model r) ↔
      ∀ (i j : Nat) (ri rj : Record), i ≠ j → model[i]? = some ri → model[j]? = some rj →
        ri.id ≠ rj.id := by
  constructor
  · intro h i j ri rj hij hi hj hid
    exact h j ⟨i, hij, ri, rj, hi, hj, hid⟩
  · rintro h r ⟨c, hc, rc, rr, hrc, hrr, hid⟩
    exact h c r rc rr hc hrc hrr hid

/-! ## The data file: round trip and loading -/

/-- C1, as stated, fails: with ids that pass validation, a field holding the
delimiter, a line feed or a carriage return is saved and does not load back.
Row ("1", "a，b", ...) is written as a line of seven fields and load skips it;
row ("1", "a⏎b", ...) is written as two lines of two and five fields; row
("1", "a␍b", ...) loads back without the carriage return. -/
theorem round_trip_fails_on_separator_in_field :
    (idsValid [⟨['1'], ['a', delimiter, 'b'], [], [], [], []⟩] ∧
      (saveDataToFile (formOf [⟨['1'], ['a', delimiter, 'b'], [], [], [], []⟩])
        ⟨[], true, true⟩).2.2 = .saved ∧
      (loadDataToTableView (saveDataToFile (formOf [⟨['1'], ['a', delimiter, 'b'], [], [], [], []⟩])
        ⟨[], true, true⟩).2.1).1.model = []) ∧
    (idsValid [⟨['1'], ['a', lineFeed, 'b'], [], [], [], []⟩] ∧
      (saveDataToFile (formOf [⟨['1'], ['a', lineFeed, 'b'], [], [], [], []⟩])
        ⟨[], true, true⟩).2.2 = .saved ∧
      (loadDataToTableView (saveDataToFile (formOf [⟨['1'], ['a', lineFeed, 'b'], [], [], [], []⟩])
        ⟨[], true, true⟩).2.1).1.model = []) ∧
    (idsValid [⟨['1'], ['a', carriageReturn, 'b'], [], [], [], []⟩] ∧
      (saveDataToFile (formOf [⟨['1'], ['a', carriageReturn, 'b'], [], [], [], []⟩])
        ⟨[], true, true⟩).2.2 = .saved ∧
      (loadDataToTableView (saveDataToFile (formOf [⟨['1'], ['a', carriageReturn, 'b'], [], [], [], []⟩])
        ⟨[], true, true⟩).2.1).1.model = [⟨['1'], ['a', 'b'], [], [], [], []⟩]) :=
  ⟨⟨⟨by decide, by decide⟩, by decide, by decide⟩,
    ⟨⟨by decide, by decide⟩, by decide, by decide⟩,
    ⟨⟨by decide, by decide⟩, by decide, by decide⟩⟩

/-- C1, amended: for every table whose ids pass validation (none blank, no two
equal) and whose fields contain neither the delimiter nor a line feed nor a
carriage return, save on a file that opens writes one line per row, the six
fields joined by the delimiter, and load of the written file gives back the
same table, field for field and in the same order. -/
theorem save_load_round_trip (s : Form) (file : QFile)
    (hids : idsValid s.model) (hclean : fieldsClean s.model)
    (hw : file.writable = true) (hr : file.readable = true) :
    (saveDataToFile s file).2.2 = .saved ∧
      (saveDataToFile s file).2.1.text = writeRows s.model ∧
      loadRows (writeRows s.model) = s.model ∧
      (loadDataToTableView (saveDataToFile s file).2.1).1.model = s.model := by
  have hv : validate s = none := (validate_eq_none_iff_idsValid s).mpr hids
  have hsave := saveDataToFile_of_valid s file hv
  rw [hw, if_pos rfl] at hsave
  have hrt := loadRows_writeRows s.model hclean
  refine ⟨by rw [hsave], by rw [hsave], hrt, ?_⟩
  have hr2 : ({ file with text := writeRows s.model } : QFile).readable = true := hr
  rw [hsave]
  exact (loadDataToTableView_model _ hr2).trans hrt

/-- C1, amended, at the example table: it is saved and loads back unchanged. -/
theorem save_load_round_trip_witness :
    idsValid exampleStore ∧ fieldsClean exampleStore ∧
      (saveDataToFile (formOf exampleStore) ⟨[], true, true⟩).2.2 = .saved ∧
      (saveDataToFile (formOf exampleStore) ⟨[], true, true⟩).2.1.text = writeRows exampleStore ∧
      loadRows (writeRows exampleStore) = exampleStore ∧
      (loadDataToTableView (saveDataToFile (formOf exampleStore) ⟨[], true, true⟩).2.1).1.model
        = exampleStore :=
  have hids : idsValid exampleStore := ⟨by decide, by decide⟩
  have hclean : fieldsClean exampleStore := by
    unfold fieldsClean
    decide
  ⟨hids, hclean, save_load_round_trip (formOf exampleStore) ⟨[], true, true⟩ hids hclean rfl rfl⟩

/-- C7: for every readable source text, the loaded table is the list, in
source order, of the lines (as the text stream delivers them) that split on
the delimiter into exactly six fields, each line becoming the row of its six
fields; lines with another
field count contribute nothing, so the number of rows is the number of
well-formed lines, and a source with 10 well-formed and 2 malformed lines
loads exactly 10 rows. -/
theorem load_keeps_exactly_the_well_formed_lines (file : QFile) (hr : file.readable = true) :
    (loadDataToTableView file).1.model
        = ((lines (textModeRead file.text)).filter wellFormed).map
            (fun l => Record.ofValues (split delimiter l)) ∧
      (∀ l, wellFormed l = true →
        (Record.ofValues (split delimiter l)).values = split delimiter l) ∧
      (loadDataToTableView file).1.model.length
        = (lines (textModeRead file.text)).countP wellFormed ∧
      ((lines (textModeRead file.text)).countP wellFormed = 10 →
        (lines (textModeRead file.text)).countP (fun l => !wellFormed l) = 2 →
        (loadDataToTableView file).1.model.length = 10) := by
  have hm : (loadDataToTableView file).1.model
      = ((lines (textModeRead file.text)).filter wellFormed).map
          (fun l => Record.ofValues (split delimiter l)) := by
    rw [loadDataToTableView_model file hr, loadRows_eq, filterMap_rowOfLine_eq]
  have hl : (loadDataToTableView file).1.model.length
      = (lines (textModeRead file.text)).countP wellFormed := by
    rw [hm, List.length_map, List.countP_eq_length_filter]
  refine ⟨hm, ?_, hl, fun h10 _ => by rw [hl, h10]⟩
  intro l hwf
  exact values_ofValues _ (by simpa [wellFormed] using hwf)

/-- C7 at a source of twelve lines, ten well formed, one with five fields and
one with seven: ten rows are loaded. -/
theorem load_keeps_exactly_the_well_formed_lines_witness :
    (lines (textModeRead sampleFile.text)).countP wellFormed = 10 ∧
      (lines (textModeRead sampleFile.text)).countP (fun l => !wellFormed l) = 2 ∧
      (loadDataToTableView sampleFile).1.model.length = 10 :=
  ⟨by decide, by decide,
    (load_keeps_exactly_the_well_formed_lines sampleFile rfl).2.2.2 (by decide) (by decide)⟩

/-! ## Validation before saving -/

/-- C10: the checking loop of save passes exactly when every id is non-empty
after trimming and no two distinct rows carry the same (untrimmed) id text;
save then goes on to the file and writes every row when the file opens. When
the loop fails, it stops at the smallest row `r` whose id is blank or equal
to the id of another row (before or after it); the warning is the empty-id
one exactly when the id of `r` is blank, and for a duplicate the view moves
to the smallest row other than `r` with that id. -/
theorem save_validation_acceptance (s : Form) (file : QFile) :
    (validate s = none ↔
      (∀ r ∈ s.model, trimmed r.id ≠ []) ∧
        ∀ (i j : Nat) (ri rj : Record), i ≠ j → s.model[i]? = some ri →
          s.model[j]? = some rj → ri.id ≠ rj.id) ∧
    (validate s = none →
      saveDataToFile s file =
        if file.writable then (s, { file with text := writeRows s.model }, .saved)
        else (s, file, .cannotOpen)) ∧
    (∀ (r : Nat) (s1 : Form) (w : Warning), validate s = some (r, s1, w) →
      saveDataToFile s file = (s1, file, .rejected r w) ∧
      (blankAt s.model r ∨ duplicatedAt s.model r) ∧
      (∀ k, k < r → ¬ (blankAt s.model k ∨ duplicatedAt s.model k)) ∧
      (w = .emptyId ↔ blankAt s.model r) ∧
      (∀ c, w = .duplicateId c →
        c ≠ r ∧ sameId s.model c r ∧ (∀ i, i < c → i ≠ r → ¬ sameId s.model i r) ∧
        s1.currentIndex = some (c, 0))) := by
  refine ⟨?_, saveDataToFile_of_valid s file, ?_⟩
  · rw [validate_eq_none_iff, ← no_blankAt_iff, ← no_duplicatedAt_iff_pairwise]
    constructor
    · intro h
      exact ⟨fun r => (h r).1, fun r => (h r).2⟩
    · intro h r
      exact ⟨h.1 r, h.2 r⟩
  · intro r s1 w h
    obtain ⟨hmin, hcase⟩ := validate_eq_some s s1 r w h
    refine ⟨saveDataToFile_of_invalid s s1 file r w h, ?_, ?_, ?_, ?_⟩
    · rcases hcase with ⟨_, hb, _⟩ | ⟨c, _, _, hc, hsame, _, _⟩
      · exact Or.inl hb
      · exact Or.inr ⟨c, hc, hsame⟩
    · intro k hk hor
      rcases hor with hb | hd
      · exact (hmin k hk).1 hb
      · exact (hmin k hk).2 hd
    · rcases hcase with ⟨hw, hb, _⟩ | ⟨c, hw, hnb, _, _, _, _⟩
      · exact ⟨fun _ => hb, fun _ => hw⟩
      · constructor
        · intro he
          rw [hw] at he
          cases he
        · intro hb
          exact absurd hb hnb
    · intro c hwc
      rcases hcase with ⟨hw, _, _⟩ | ⟨c2, hw, _, hc, hsame, hfirst, hs⟩
      · rw [hw] at hwc
        cases hwc
      · rw [hw] at hwc
        cases hwc
        refine ⟨hc, hsame, hfirst, ?_⟩
        rw [hs]
        rfl

/-- C10 on two tables: ids A, B, A stop the loop at row 0 and move the view to
row 2; ids A, B pass and the file is written. -/
theorem save_validation_acceptance_witness :
    (saveDataToFile (formOf [⟨['A'], [], [], [], [], []⟩, ⟨['B'], [], [], [], [], []⟩,
        ⟨['A'], [], [], [], [], []⟩]) ⟨['x'], true, true⟩).2
      = (⟨['x'], true, true⟩, .rejected 0 (.duplicateId 2)) ∧
    sameId [⟨['A'], [], [], [], [], []⟩, ⟨['B'], [], [], [], [], []⟩,
        ⟨['A'], [], [], [], [], []⟩] 2 0 ∧
    (saveDataToFile (formOf [⟨['A'], [], [], [], [], []⟩, ⟨['B'], [], [], [], [], []⟩])
        ⟨['x'], true, true⟩).2.2 = .saved :=
  have h := save_validation_acceptance
    (formOf [⟨['A'], [], [], [], [], []⟩, ⟨['B'], [], [], [], [], []⟩,
      ⟨['A'], [], [], [], [], []⟩]) ⟨['x'], true, true⟩
  have h0 := h.2.2 0 _ (.duplicateId 2) rfl
  have hv := (save_validation_acceptance
    (formOf [⟨['A'], [], [], [], [], []⟩, ⟨['B'], [], [], [], [], []⟩])
    ⟨['x'], true, true⟩).2.1 (by decide)
  ⟨by rw [h0.1], (h0.2.2.2.2 2 rfl).2.1, by rw [hv]; rfl⟩

/-- C2, as stated, fails. Ids "S001" and "S001 " are equal after trimming, yet
the check passes and the file is written, since the ids are compared as they
stand. With ids A, B, B, A the loop stops at row 0 and moves the view to row
3, not at row 2 (the first row repeating an earlier id) against row 1. With
the id " " twice, and with ids " ", A, A, the warning is the empty-id one. -/
theorem trimmed_duplicate_is_saved :
    (trimmed "S001".toList = trimmed "S001 ".toList ∧
      validate (formOf [⟨"S001".toList, [], [], [], [], []⟩,
        ⟨"S001 ".toList, [], [], [], [], []⟩]) = none ∧
      (saveDataToFile (formOf [⟨"S001".toList, [], [], [], [], []⟩,
        ⟨"S001 ".toList, [], [], [], [], []⟩]) ⟨[], true, true⟩).2
        = (⟨"S001，，，，，\nS001 ，，，，，\n".toList, true, true⟩, .saved)) ∧
    (saveDataToFile (formOf [⟨['A'], [], [], [], [], []⟩, ⟨['B'], [], [], [], [], []⟩,
        ⟨['B'], [], [], [], [], []⟩, ⟨['A'], [], [], [], [], []⟩]) ⟨[], true, true⟩).2.2
      = .rejected 0 (.duplicateId 3) ∧
    (saveDataToFile (formOf [⟨[' '], [], [], [], [], []⟩, ⟨[' '], [], [], [], [], []⟩])
        ⟨[], true, true⟩).2.2 = .rejected 0 .emptyId ∧
    (saveDataToFile (formOf [⟨[' '], [], [], [], [], []⟩, ⟨['A'], [], [], [], [], []⟩,
        ⟨['A'], [], [], [], [], []⟩]) ⟨[], true, true⟩).2.2 = .rejected 0 .emptyId :=
  ⟨⟨by decide, by decide, by decide⟩, by decide, by decide, by decide⟩

/-- C2, amended: for every table that contains two rows `i < j` with the
same id text (compared as it stands, untrimmed) and has no blank id in the
rows up to `i`, the check run by save fails with the duplicate-id warning and
the file is left as it was. The loop stops at the first row `r` whose id is also carried by another
row, so `r ≤ i`, and the view moves to the first other row `c` with that id,
which lies after `r`. -/
theorem exact_duplicate_is_rejected (s : Form) (file : QFile) (i j : Nat) (ri rj : Record)
    (hij : i < j) (hi : s.model[i]? = some ri) (hj : s.model[j]? = some rj)
    (heq : ri.id = rj.id) (hnb : ∀ k, k ≤ i → ¬ blankAt s.model k) :
    ∃ r c s1, validate s = some (r, s1, .duplicateId c) ∧
      saveDataToFile s file = (s1, file, .rejected r (.duplicateId c)) ∧
      s1.model = s.model ∧ s1.currentIndex = some (c, 0) ∧
      r ≤ i ∧ r < c ∧ sameId s.model c r ∧
      (∀ k, k < r → ¬ duplicatedAt s.model k) ∧
      (∀ k, k < c → k ≠ r → ¬ sameId s.model k r) := by
  have hdup : duplicatedAt s.model i := ⟨j, by omega, rj, ri, hj, hi, heq.symm⟩
  cases hv : validate s with
  | none =>
    exact absurd hdup ((validate_eq_none_iff s).mp hv i).2
  | some res =>
    obtain ⟨r, s1, w⟩ := res
    obtain ⟨hmin, hcase⟩ := validate_eq_some s s1 r w hv
    have hri : r ≤ i := by
      by_contra hlt
      exact (hmin i (by omega)).2 hdup
    rcases hcase with ⟨_, hbr, _⟩ | ⟨c, hw, _, hc, hsame, hfirst, hs⟩
    · exact absurd hbr (hnb r hri)
    · subst hw
      have hrc : r < c := by
        rcases Nat.lt_or_gt_of_ne hc with hlt | hgt
        · exact absurd ⟨r, by omega, sameId_symm _ _ _ hsame⟩ (hmin c hlt).2
        · exact hgt
      refine ⟨r, c, s1, rfl, saveDataToFile_of_invalid s s1 file r _ hv,
        validate_model s s1 r _ hv, ?_, hri, hrc, hsame, fun k hk => (hmin k hk).2, hfirst⟩
      rw [hs]
      rfl

/-- C2, amended, at ids A, A, " " with the equal pair at rows 0 and 1: the
blank id in row 2 comes after the pair, and the warning is the duplicate-id
one. -/
theorem exact_duplicate_is_rejected_witness :
    ∃ r c s1, validate (formOf [⟨['A'], [], [], [], [], []⟩, ⟨['A'], [], [], [], [], []⟩,
        ⟨[' '], [], [], [], [], []⟩]) = some (r, s1, .duplicateId c) ∧
      saveDataToFile (formOf [⟨['A'], [], [], [], [], []⟩, ⟨['A'], [], [], [], [], []⟩,
        ⟨[' '], [], [], [], [], []⟩]) ⟨['x'], true, true⟩
        = (s1, ⟨['x'], true, true⟩, .rejected r (.duplicateId c)) ∧
      s1.model = [⟨['A'], [], [], [], [], []⟩, ⟨['A'], [], [], [], [], []⟩,
        ⟨[' '], [], [], [], [], []⟩] ∧
      s1.currentIndex = some (c, 0) ∧ r ≤ 0 ∧ r < c :=
  have ⟨r, c, s1, h1, h2, h3, h4, h5, h6, _⟩ :=
    exact_duplicate_is_rejected
      (formOf [⟨['A'], [], [], [], [], []⟩, ⟨['A'], [], [], [], [], []⟩,
        ⟨[' '], [], [], [], [], []⟩])
      ⟨['x'], true, true⟩ 0 1 ⟨['A'], [], [], [], [], []⟩ ⟨['A'], [], [], [], [], []⟩
      (by decide) rfl rfl rfl
      (by
        intro k hk
        have hk0 : k = 0 := by omega
        subst hk0
        rintro ⟨rr, hrr, hb⟩
        have hr : (⟨['A'], [], [], [], [], []⟩ : Record) = rr := by
          simpa [formOf] using hrr
        subst hr
        exact absurd hb (by decide))
  ⟨r, c, s1, h1, h2, h3, h4, h5, h6⟩

/-- C3, as stated, fails: with ids A, A and a blank id in row 2, the loop
stops at row 0 with the duplicate-id warning, not with the empty-id one. -/
theorem blank_id_after_duplicate_reports_duplicate :
    blank [' '] ∧
      (saveDataToFile (formOf [⟨['A'], [], [], [], [], []⟩, ⟨['A'], [], [], [], [], []⟩,
        ⟨[' '], [], [], [], [], []⟩]) ⟨[], true, true⟩).2.2
        = .rejected 0 (.duplicateId 1) :=
  ⟨by unfold blank; decide, by decide⟩

/-- C3, amended: for every table that contains a row `i` whose id is empty or
all whitespace, whatever the other fields, the check run by save fails and
the file is left as it was. The loop stops at the first row `r ≤ i` whose id
is blank or equal to the id of another row, and the warning is the empty-id
one exactly when the id of `r` is blank; in particular, when no row before
`i` has a blank id or shares its id with another row, the check stops at row
`i` with the empty-id warning. -/
theorem blank_id_is_rejected (s : Form) (file : QFile) (i : Nat) (ri : Record)
    (hi : s.model[i]? = some ri) (hb : blank ri.id) :
    (∃ r s1 w, validate s = some (r, s1, w) ∧
      saveDataToFile s file = (s1, file, .rejected r w) ∧ s1.model = s.model ∧ r ≤ i ∧
      (blankAt s.model r ∨ duplicatedAt s.model r) ∧
      (∀ k, k < r → ¬ blankAt s.model k ∧ ¬ duplicatedAt s.model k) ∧
      (w = .emptyId ↔ blankAt s.model r)) ∧
    ((∀ k, k < i → ¬ blankAt s.model k ∧ ¬ duplicatedAt s.model k) →
      validate s = some (i, s, .emptyId) ∧
        saveDataToFile s file = (s, file, .rejected i .emptyId)) := by
  have hbi : blankAt s.model i := ⟨ri, hi, (trimmed_eq_nil_iff ri.id).mpr hb⟩
  cases hv : validate s with
  | none =>
    exact absurd hbi ((validate_eq_none_iff s).mp hv i).1
  | some res =>
    obtain ⟨r, s1, w⟩ := res
    obtain ⟨hmin, hcase⟩ := validate_eq_some s s1 r w hv
    have hri : r ≤ i := by
      by_contra hlt
      exact (hmin i (by omega)).1 hbi
    have hoff : blankAt s.model r ∨ duplicatedAt s.model r := by
      rcases hcase with ⟨_, hbr, _⟩ | ⟨c, _, _, hc, hsame, _, _⟩
      · exact Or.inl hbr
      · exact Or.inr ⟨c, hc, hsame⟩
    have hiff : w = .emptyId ↔ blankAt s.model r := by
      rcases hcase with ⟨hw, hbr, _⟩ | ⟨c, hw, hnb, _, _, _, _⟩
      · exact ⟨fun _ => hbr, fun _ => hw⟩
      · constructor
        · intro he
          rw [hw] at he
          cases he
        · intro hbr
          exact absurd hbr hnb
    refine ⟨⟨r, s1, w, rfl, saveDataToFile_of_invalid s s1 file r w hv,
      validate_model s s1 r w hv, hri, hoff, hmin, hiff⟩, ?_⟩
    intro hclean
    have hr : r = i := by
      by_contra hne
      have hlt : r < i := by omega
      rcases hoff with h1 | h1
      · exact (hclean r hlt).1 h1
      · exact (hclean r hlt).2 h1
    subst hr
    rcases hcase with ⟨hw, _, hs⟩ | ⟨c, _, hnb, _, _, _, _⟩
    · subst hw
      subst hs
      exact ⟨rfl, saveDataToFile_of_invalid s1 s1 file r _ hv⟩
    · exact absurd hbi hnb

/-- C3, amended, at ids A, blank, A: row 0 shares its id, so the loop stops
at or before the blank row 1; at ids blank, A: the loop stops at row 0 with
the empty-id warning. -/
theorem blank_id_is_rejected_witness :
    (∃ r s1 w, validate (formOf [⟨['A'], [], [], [], [], []⟩, ⟨[' '], ['n'], [], [], [], []⟩,
        ⟨['A'], [], [], [], [], []⟩]) = some (r, s1, w) ∧ r ≤ 1) ∧
      saveDataToFile (formOf [⟨[' '], ['n'], [], [], [], []⟩, ⟨['A'], [], [], [], [], []⟩])
        ⟨['x'], true, true⟩
        = (formOf [⟨[' '], ['n'], [], [], [], []⟩, ⟨['A'], [], [], [], [], []⟩],
            ⟨['x'], true, true⟩, .rejected 0 .emptyId) :=
  have ⟨r, s1, w, h1, _, _, h4, _⟩ :=
    (blank_id_is_rejected
      (formOf [⟨['A'], [], [], [], [], []⟩, ⟨[' '], ['n'], [], [], [], []⟩,
        ⟨['A'], [], [], [], [], []⟩])
      ⟨['x'], true, true⟩ 1 ⟨[' '], ['n'], [], [], [], []⟩ rfl (by unfold blank; decide)).1
  ⟨⟨r, s1, w, h1, h4⟩,
    ((blank_id_is_rejected
      (formOf [⟨[' '], ['n'], [], [], [], []⟩, ⟨['A'], [], [], [], [], []⟩])
      ⟨['x'], true, true⟩ 0 ⟨[' '], ['n'], [], [], [], []⟩ rfl (by unfold blank; decide)).2
      (fun k hk => absurd hk (Nat.not_lt_zero k))).2⟩

/-- C4: for every table and every prior file, when the check run by save
fails, save returns without opening the file: the file is what it was and
the table is unchanged; the check fails exactly when some row has a blank id
or shares its id with another row. -/
theorem save_rejected_leaves_file_and_table (s : Form) (file : QFile)
    (h : validate s ≠ none) :
    (saveDataToFile s file).2.1 = file ∧
      (saveDataToFile s file).1.model = s.model ∧
      (∃ r w, (saveDataToFile s file).2.2 = .rejected r w) ∧
      (∃ r, blankAt s.model r ∨ duplicatedAt s.model r) := by
  cases hv : validate s with
  | none => exact absurd hv h
  | some res =>
    obtain ⟨r, s1, w⟩ := res
    rw [saveDataToFile_of_invalid s s1 file r w hv]
    refine ⟨rfl, validate_model s s1 r w hv, ⟨r, w, rfl⟩, r, ?_⟩
    rcases (validate_eq_some s s1 r w hv).2 with ⟨_, hb, _⟩ | ⟨c, _, _, hc, hsame, _, _⟩
    · exact Or.inl hb
    · exact Or.inr ⟨c, hc, hsame⟩

/-- C4 at a table with id S001 twice and a file holding "old": the file still
holds "old" after save. -/
theorem save_rejected_leaves_file_and_table_witness :
    validate (formOf [⟨"S001".toList, ['a'], [], [], [], []⟩,
        ⟨"S001".toList, ['b'], [], [], [], []⟩]) ≠ none ∧
      (saveDataToFile (formOf [⟨"S001".toList, ['a'], [], [], [], []⟩,
        ⟨"S001".toList, ['b'], [], [], [], []⟩]) ⟨"old".toList, true, true⟩).2.1
        = ⟨"old".toList, true, true⟩ ∧
      (saveDataToFile (formOf [⟨"S001".toList, ['a'], [], [], [], []⟩,
        ⟨"S001".toList, ['b'], [], [], [], []⟩]) ⟨"old".toList, true, true⟩).1.model
        = [⟨"S001".toList, ['a'], [], [], [], []⟩, ⟨"S001".toList, ['b'], [], [], [], []⟩] :=
  have h := save_rejected_leaves_file_and_table
    (formOf [⟨"S001".toList, ['a'], [], [], [], []⟩, ⟨"S001".toList, ['b'], [], [], [], []⟩])
    ⟨"old".toList, true, true⟩ (by decide)
  ⟨by decide, h.1, h.2.1⟩

/-! ## Delete: lemmas -/

theorem removeRow_eq_eraseIdx (row : Nat) (model : List Record) :
    removeRow row model = model.eraseIdx row := by
  unfold removeRow
  split
  · rfl
  · exact (List.eraseIdx_of_length_le (by omega)).symm

theorem keepFrom_eq_filter (rows : List Nat) : ∀ (model : List Record) (k : Nat),
    keepFrom rows k model
      = ((model.enumFrom k).filter fun p => decide (p.1 ∉ rows)).map Prod.snd
  | [], _ => rfl
  | r :: rs, k => by
    have ih := keepFrom_eq_filter rows rs (k + 1)
    by_cases hk : k ∈ rows
    · simp [keepFrom, List.enumFrom_cons, List.filter_cons, hk, ih]
    · simp [keepFrom, List.enumFrom_cons, List.filter_cons, hk, ih]

theorem keepFrom_of_lt (rows : List Nat) : ∀ (model : List Record) (k : Nat),
    (∀ r ∈ rows, r < k) → keepFrom rows k model = model
  | [], _, _ => rfl
  | r :: rs, k, h => by
    have hk : k ∉ rows := fun hm => Nat.lt_irrefl k (h k hm)
    have ih := keepFrom_of_lt rows rs (k + 1) (fun x hx => Nat.lt_succ_of_lt (h x hx))
    simp [keepFrom, hk, ih]

theorem keepFrom_eraseIdx (rest : List Nat) : ∀ (model : List Record) (k a : Nat),
    (∀ r ∈ rest, r < k + a) →
    keepFrom rest k (model.eraseIdx a) = keepFrom ((k + a) :: rest) k model
  | [], _, _, _ => by simp [keepFrom]
  | r :: rs, k, 0, h => by
    have h1 : keepFrom rest k rs = rs := keepFrom_of_lt rest rs k (by simpa using h)
    have h2 : keepFrom (k :: rest) (k + 1) rs = rs :=
      keepFrom_of_lt (k :: rest) rs (k + 1) (by
        intro x hx
        rcases List.mem_cons.mp hx with rfl | hx
        · omega
        · have := h x hx
          omega)
    simp [keepFrom, h1, h2]
  | r :: rs, k, a + 1, h => by
    have ih := keepFrom_eraseIdx rest rs (k + 1) a (by
      intro x hx
      have := h x hx
      omega)
    have hmem : k ∈ (k + (a + 1)) :: rest ↔ k ∈ rest := by
      constructor
      · intro hm
        rcases List.mem_cons.mp hm with he | hm
        · omega
        · exact hm
      · exact List.mem_cons_of_mem _
    have hidx : k + 1 + a = k + (a + 1) := by omega
    rw [hidx] at ih
    by_cases hk : k ∈ rest
    · simp only [List.eraseIdx_cons_succ, keepFrom, hk, hmem.mpr hk, if_true]
      exact ih
    · have hk2 : k ∉ (k + (a + 1)) :: rest := fun hm => hk (hmem.mp hm)
      simp only [List.eraseIdx_cons_succ, keepFrom, hk, hk2, if_false]
      rw [ih]

theorem keepFrom_congr (rows1 rows2 : List Nat) (h : ∀ x, x ∈ rows1 ↔ x ∈ rows2) :
    ∀ (model : List Record) (k : Nat), keepFrom rows1 k model = keepFrom rows2 k model
  | [], _ => rfl
  | r :: rs, k => by
    have ih := keepFrom_congr rows1 rows2 h rs (k + 1)
    by_cases hk : k ∈ rows1
    · simp [keepFrom, hk, (h k).mp hk, ih]
    · have hk2 : k ∉ rows2 := fun hm => hk ((h k).mpr hm)
      simp [keepFrom, hk, hk2, ih]

theorem removeRows_descending : ∀ (rows : List Nat), rows.Pairwise (· > ·) →
    ∀ model : List Record, removeRows rows model = keepFrom rows 0 model
  | [], _, model => by
    simp [removeRows, keepFrom_of_lt]
  | a :: rest, h, model => by
    have hrest : rest.Pairwise (· > ·) := (List.pairwise_cons.mp h).2
    have hlt : ∀ r ∈ rest, r < 0 + a := by
      intro r hr
      have := (List.pairwise_cons.mp h).1 r hr
      omega
    have ih := removeRows_descending rest hrest (removeRow a model)
    have hstep : removeRows (a :: rest) model = removeRows rest (removeRow a model) := rfl
    rw [hstep, ih, removeRow_eq_eraseIdx, keepFrom_eraseIdx rest model 0 a hlt, Nat.zero_add]

theorem sortDescending_pairwise (rows : List Nat) (hd : rows.Nodup) :
    (sortDescending rows).Pairwise (· > ·) := by
  have hs : (sortDescending rows).Pairwise (· ≥ ·) := List.sorted_insertionSort (· ≥ ·) rows
  have hn : (sortDescending rows).Pairwise (· ≠ ·) :=
    (List.perm_insertionSort (· ≥ ·) rows).nodup_iff.mpr hd
  refine (hs.and hn).imp ?_
  intro a b hab
  have h1 : a ≥ b := hab.1
  have h2 : a ≠ b := hab.2
  omega

theorem removeRows_sortDescending (rows : List Nat) (hd : rows.Nodup) (model : List Record) :
    removeRows (sortDescending rows) model = unselected rows model := by
  rw [removeRows_descending _ (sortDescending_pairwise rows hd),
    keepFrom_congr (sortDescending rows) rows
      (fun x => (List.perm_insertionSort (· ≥ ·) rows).mem_iff) model 0,
    keepFrom_eq_filter]
  rfl

theorem deleteDataSLOT_model_of_selection (s : Form) (h : s.selectedRows ≠ []) :
    (deleteDataSLOT s).1.model = removeRows (sortDescending s.selectedRows) s.model := by
  have he : s.selectedRows.isEmpty = false := by
    cases hs : s.selectedRows with
    | nil => exact absurd hs h
    | cons a t => rfl
  unfold deleteDataSLOT
  simp only [he, Bool.false_eq_true, false_and, if_false, Bool.not_false, if_true]
  split <;> rfl

theorem deleteDataSLOT_of_selection (s : Form) (h : s.selectedRows ≠ []) :
    deleteDataSLOT s =
      if (removeRows (sortDescending s.selectedRows) s.model).length > 0 then
        ({ model := removeRows (sortDescending s.selectedRows) s.model
           currentIndex :=
             some ((removeRows (sortDescending s.selectedRows) s.model).length - 1, 0)
           selectedRows := [(removeRows (sortDescending s.selectedRows) s.model).length - 1]
           findLineEdit := s.findLineEdit }, .done)
      else
        ({ model := removeRows (sortDescending s.selectedRows) s.model
           currentIndex := s.currentIndex
           selectedRows := []
           findLineEdit := s.findLineEdit }, .done) := by
  have he : s.selectedRows.isEmpty = false := by
    cases hs : s.selectedRows with
    | nil => exact absurd hs h
    | cons a t => rfl
  unfold deleteDataSLOT
  simp only [he, Bool.false_eq_true, false_and, if_false, Bool.not_false, if_true]
  by_cases hpos : (removeRows (sortDescending s.selectedRows) s.model).length > 0
  · have hlt : (removeRows (sortDescending s.selectedRows) s.model).length - 1
        < (removeRows (sortDescending s.selectedRows) s.model).length := by omega
    simp [Form.rowCount, Form.index, Form.setCurrentIndex, hpos, hlt, columnCount]
  · simp [Form.rowCount, Form.clearSelection, hpos]

/-! ## Delete -/

/-- C5: for every table and every selection of distinct rows, the removal
loop (rows sorted by descending index, removed one at a time, rows outside
the table ignored) leaves exactly the records whose original index is not
selected, in their original order, and so does `deleteDataSLOT` on a
non-empty selection; removing the rows 1, 3, 4 in one call equals removing
row 4, then row 3, then row 1. -/
theorem multi_row_delete_keeps_the_unselected (model : List Record) (rows : List Nat)
    (hd : rows.Nodup) :
    removeRows (sortDescending rows) model = unselected rows model ∧
      (∀ s : Form, s.model = model → s.selectedRows = rows → rows ≠ [] →
        (deleteDataSLOT s).1.model = unselected rows model) ∧
      removeRows (sortDescending [1, 3, 4]) model
        = removeRow 1 (removeRow 3 (removeRow 4 model)) ∧
      unselected [1, 3, 4] model = removeRow 1 (removeRow 3 (removeRow 4 model)) := by
  have h134 : sortDescending [1, 3, 4] = [4, 3, 1] := by decide
  have hstep : removeRows (sortDescending [1, 3, 4]) model
      = removeRow 1 (removeRow 3 (removeRow 4 model)) := by
    rw [h134]
    rfl
  refine ⟨removeRows_sortDescending rows hd model, ?_, hstep, ?_⟩
  · intro s hm hs hne
    rw [deleteDataSLOT_model_of_selection s (hs ▸ hne), hs, hm]
    exact removeRows_sortDescending rows hd model
  · rw [← hstep]
    exact (removeRows_sortDescending [1, 3, 4] (by decide) model).symm

/-- C5 on six rows with the selection 3, 1, 9, 4 (row 9 is outside the
table): the rows 0, 2 and 5 remain. -/
theorem multi_row_delete_keeps_the_unselected_witness :
    [3, 1, 9, 4].Nodup ∧
      removeRows (sortDescending [3, 1, 9, 4]) sixRows = unselected [3, 1, 9, 4] sixRows ∧
      unselected [3, 1, 9, 4] sixRows
        = [⟨['0'], [], [], [], [], []⟩, ⟨['2'], [], [], [], [], []⟩, ⟨['5'], [], [], [], [], []⟩] ∧
      (deleteDataSLOT { formOf sixRows with selectedRows := [3, 1, 9, 4] }).1.model
        = unselected [3, 1, 9, 4] sixRows :=
  have h := multi_row_delete_keeps_the_unselected sixRows [3, 1, 9, 4] (by decide)
  ⟨by decide, h.1, by decide,
    h.2.1 { formOf sixRows with selectedRows := [3, 1, 9, 4] } rfl rfl (by decide)⟩

/-- C8, as stated, fails: with no row selected and the current index at cell
(0, 0) of the two-row example table, delete does not warn; it removes row 0. -/
theorem delete_with_cursor_and_no_selection_removes_row :
    ({ formOf exampleStore with currentIndex := some (0, 0) } : Form).selectedRows = [] ∧
      (deleteDataSLOT { formOf exampleStore with currentIndex := some (0, 0) }).2 = .done ∧
      (deleteDataSLOT { formOf exampleStore with currentIndex := some (0, 0) }).1.model
        = exampleStore.eraseIdx 0 ∧
      (deleteDataSLOT { formOf exampleStore with currentIndex := some (0, 0) }).1.model
        ≠ exampleStore :=
  ⟨rfl, by decide, by decide, by decide⟩

/-- C8, amended: for every state in which no row is selected, delete warns
that nothing is selected and leaves the state, the table included, unchanged
when the view has no current index; when the current index is a cell of row
`r`, delete does not warn and removes row `r` (nothing when `r` is outside
the table). -/
theorem delete_with_no_selection (s : Form) (h : s.selectedRows = []) :
    (s.currentIndex = none → deleteDataSLOT s = (s, .noSelection)) ∧
      (∀ r c, s.currentIndex = some (r, c) →
        (deleteDataSLOT s).2 = .done ∧ (deleteDataSLOT s).1.model = removeRow r s.model) := by
  refine ⟨?_, ?_⟩
  · intro hc
    unfold deleteDataSLOT
    simp [h, hc, QModelIndex.row]
  · intro r c hc
    have hrow : s.currentIndex.row = (r : Int) := by
      rw [hc]
      rfl
    have hguard : ¬ (s.selectedRows.isEmpty = true ∧ s.currentIndex.row < 0) := by
      rw [hrow]
      intro hg
      have := hg.2
      omega
    unfold deleteDataSLOT
    simp only [hguard, if_false]
    have hsel : (!s.selectedRows.isEmpty) = false := by simp [h]
    simp only [hsel, Bool.false_eq_true, if_false, hrow, Int.toNat_ofNat]
    have hm : (if 0 ≤ (r : Int) ∧ (r : Int) < (s.rowCount : Int) then removeRow r s.model
        else s.model) = removeRow r s.model := by
      split
      · rfl
      · rename_i hn
        have : ¬ r < s.model.length := by
          intro hlt
          apply hn
          constructor
          · omega
          · unfold Form.rowCount
            omega
        simp [removeRow, this]
    rw [hm]
    split <;> exact ⟨rfl, rfl⟩

/-- C8, amended, on the example table: without current index the state is
returned with the warning; with the current index in row 1, row 1 goes. -/
theorem delete_with_no_selection_witness :
    deleteDataSLOT (formOf exampleStore) = (formOf exampleStore, .noSelection) ∧
      (deleteDataSLOT { formOf exampleStore with currentIndex := some (1, 2) }).1.model
        = removeRow 1 exampleStore :=
  ⟨(delete_with_no_selection (formOf exampleStore) rfl).1 rfl,
    ((delete_with_no_selection { formOf exampleStore with currentIndex := some (1, 2) } rfl).2
      1 2 rfl).2⟩

/-- C9: for every state with a non-empty selection, after delete the
selection is the single last row, index (new row count - 1), and that row is
current, when rows remain; it is empty when no row remains; so the selection
is always inside the table. On the two-row example with row 0 selected the
table becomes the former row 1 and the selection becomes row 0. -/
theorem selection_after_delete (s : Form) (hne : s.selectedRows ≠ []) :
    (deleteDataSLOT s).2 = .done ∧
      ((deleteDataSLOT s).1.model ≠ [] →
        (deleteDataSLOT s).1.selectedRows = [(deleteDataSLOT s).1.rowCount - 1] ∧
        (deleteDataSLOT s).1.currentIndex = some ((deleteDataSLOT s).1.rowCount - 1, 0)) ∧
      ((deleteDataSLOT s).1.model = [] → (deleteDataSLOT s).1.selectedRows = []) ∧
      (∀ r ∈ (deleteDataSLOT s).1.selectedRows, r < (deleteDataSLOT s).1.rowCount) ∧
      (deleteDataSLOT { formOf exampleStore with selectedRows := [0] }).1.model
        = exampleStore.drop 1 ∧
      (deleteDataSLOT { formOf exampleStore with selectedRows := [0] }).1.selectedRows = [0] := by
  have hform := deleteDataSLOT_of_selection s hne
  refine ⟨?_, ?_, ?_, ?_, by decide, by decide⟩
  · rw [hform]
    split <;> rfl
  · intro hm
    rw [hform] at hm ⊢
    split at hm
    · rename_i hpos
      rw [if_pos hpos]
      exact ⟨rfl, rfl⟩
    · rename_i hpos
      exact absurd (List.length_eq_zero.mp (by simpa using hpos)) hm
  · intro _
    rw [hform]
    split
    · rename_i hpos
      rename_i hm
      rw [hform, if_pos hpos] at hm
      have : (removeRows (sortDescending s.selectedRows) s.model) = [] := hm
      rw [this] at hpos
      exact absurd hpos (by simp)
    · rfl
  · intro r hr
    rw [hform] at hr ⊢
    split at hr
    · rename_i hpos
      rw [if_pos hpos]
      have hr2 : r = (removeRows (sortDescending s.selectedRows) s.model).length - 1 := by
        simpa using hr
      show r < (removeRows (sortDescending s.selectedRows) s.model).length
      omega
    · simp at hr

/-- C9 on six rows with the rows 5 and 0 selected: four rows remain and row 3
is selected. -/
theorem selection_after_delete_witness :
    ({ formOf sixRows with selectedRows := [5, 0] } : Form).selectedRows ≠ [] ∧
      (deleteDataSLOT { formOf sixRows with selectedRows := [5, 0] }).1.rowCount = 4 ∧
      (deleteDataSLOT { formOf sixRows with selectedRows := [5, 0] }).1.selectedRows = [3] :=
  have h := selection_after_delete { formOf sixRows with selectedRows := [5, 0] } (by decide)
  ⟨by decide, by decide, (h.2.1 (by decide)).1⟩

/-! ## Find -/

theorem contains_iff (fold : Char → Char) (v query : QString) :
    contains fold v query = true ↔ matchesQuery fold query v := by
  unfold contains matchesQuery
  rw [List.any_eq_true, List.infix_iff_prefix_suffix]
  constructor
  · rintro ⟨t, ht, hp⟩
    exact ⟨t, List.isPrefixOf_iff_prefix.mp hp, (List.mem_tails _ _).mp ht⟩
  · rintro ⟨t, hp, ht⟩
    exact ⟨t, (List.mem_tails _ _).mpr ht, List.isPrefixOf_iff_prefix.mpr hp⟩

theorem findLoop_eq_none (fold : Char → Char) (query : QString) (col : Nat) :
    ∀ (rows : List Record) (k : Nat),
      findLoop fold query col k rows = none ↔
        ∀ (j : Nat) (rj : Record), rows[j]? = some rj →
          ¬ matchesQuery fold query (rj.item col)
  | [], k => by simp [findLoop]
  | r :: rows, k => by
    have ih := findLoop_eq_none fold query col rows (k + 1)
    unfold findLoop
    by_cases hc : contains fold (r.item col) query = true
    · simp only [hc, if_true]
      refine ⟨fun h => absurd h (by simp), ?_⟩
      intro h
      exact absurd ((contains_iff fold _ _).mp hc) (h 0 r (by simp))
    · simp only [hc, Bool.false_eq_true, if_false]
      rw [ih]
      constructor
      · intro h j rj hj
        cases j with
        | zero =>
          have hr : r = rj := by simpa using hj
          subst hr
          exact fun hm => hc ((contains_iff fold _ _).mpr hm)
        | succ j => exact h j rj (by simpa using hj)
      · intro h j rj hj
        exact h (j + 1) rj (by simpa using hj)

theorem findLoop_eq_some (fold : Char → Char) (query : QString) (col : Nat) :
    ∀ (rows : List Record) (k row : Nat) (v : QString),
      findLoop fold query col k rows = some (row, v) →
        ∃ j rj, row = k + j ∧ rows[j]? = some rj ∧ v = rj.item col ∧
          matchesQuery fold query v ∧
          ∀ (i : Nat) (ri : Record), i < j → rows[i]? = some ri →
            ¬ matchesQuery fold query (ri.item col)
  | [], k, row, v => by simp [findLoop]
  | r :: rows, k, row, v => by
    have ih := findLoop_eq_some fold query col rows (k + 1) row v
    unfold findLoop
    by_cases hc : contains fold (r.item col) query = true
    · simp only [hc, if_true, Option.some.injEq, Prod.mk.injEq]
      rintro ⟨rfl, rfl⟩
      refine ⟨0, r, by omega, by simp, rfl, (contains_iff fold _ _).mp hc, ?_⟩
      intro i ri hi
      omega
    · simp only [hc, Bool.false_eq_true, if_false]
      intro h
      obtain ⟨j, rj, hrow, hj, hv, hm, hmin⟩ := ih h
      refine ⟨j + 1, rj, by omega, by simpa using hj, hv, hm, ?_⟩
      intro i ri hi hri
      cases i with
      | zero =>
        have hr : r = ri := by simpa using hri
        subst hr
        exact fun hm2 => hc ((contains_iff fold _ _).mpr hm2)
      | succ i => exact hmin i ri (by omega) (by simpa using hri)

theorem findLoop_eq_some_iff (fold : Char → Char) (query : QString) (col : Nat)
    (model : List Record) (i : Nat) (v : QString) :
    findLoop fold query col 0 model = some (i, v) ↔ firstMatch fold query col model i v := by
  constructor
  · intro h
    obtain ⟨j, rj, hrow, hj, hv, hm, hmin⟩ := findLoop_eq_some fold query col model 0 i v h
    have hij : i = j := by omega
    subst hij
    exact ⟨rj, hj, hv, hm, fun k rk hk hrk => hmin k rk hk hrk⟩
  · rintro ⟨ri, hi, hv, hm, hmin⟩
    cases hf : findLoop fold query col 0 model with
    | none =>
      have := (findLoop_eq_none fold query col model 0).mp hf i ri hi
      rw [← hv] at this
      exact absurd hm this
    | some res =>
      obtain ⟨i2, v2⟩ := res
      obtain ⟨j, rj, hrow, hj, hv2, hm2, hmin2⟩ :=
        findLoop_eq_some fold query col model 0 i2 v2 hf
      have hij : i2 = j := by omega
      subst hij
      have heq : i2 = i := by
        rcases Nat.lt_trichotomy i2 i with hlt | heq | hgt
        · exact absurd (hv2 ▸ hm2) (hmin i2 rj hlt hj)
        · exact heq
        · exact absurd (hv ▸ hm) (hmin2 i ri hgt hi)
      subst heq
      rw [hi] at hj
      cases hj
      rw [hv, hv2]

theorem findDataSLOT_eq (fold : Char → Char) (s : Form) (hq : trimmed s.findLineEdit ≠ []) :
    findDataSLOT fold s =
      match findLoop fold (trimmed s.findLineEdit) (searchColumn (trimmed s.findLineEdit)) 0
          s.model with
      | some (row, values) =>
        (s.setCurrentIndex (s.index row (searchColumn (trimmed s.findLineEdit))),
          .found row values)
      | none => ({ s with findLineEdit := [] }, .notFound) := by
  have hne : (trimmed s.findLineEdit).isEmpty = false := by
    cases h : trimmed s.findLineEdit with
    | nil => exact absurd h hq
    | cons a t => rfl
  unfold findDataSLOT searchColumn
  simp only [hne, Bool.false_eq_true, if_false]
  split <;> rfl

theorem utf16Length_of_inBMP : ∀ s : QString, inBMP s → utf16Length s = s.length
  | [], _ => rfl
  | c :: cs, h => by
    have hc : c.toNat < 0x10000 := h c (by simp)
    have ih := utf16Length_of_inBMP cs (fun x hx => h x (List.mem_cons_of_mem _ hx))
    simp only [utf16Length, utf16Units, hc, if_true, ih, List.length_cons]
    omega

/-- C6, as stated, fails: the query of three characters U+1F600 is not longer
than 5 characters, yet its `length()` is 6 and find searches the ids. On a
table whose only row has the query as id and "x" as name, find reports the
row although its name does not match; on a table whose only row has id "1"
and the query as name, find reports nothing although the name matches. -/
theorem find_counts_code_units_not_characters :
    trimmed wideQuery = wideQuery ∧ List.length wideQuery = 3 ∧ utf16Length wideQuery = 6 ∧
      (findDataSLOT asciiFold
        { model := [⟨wideQuery, ['x'], [], [], [], []⟩], currentIndex := none,
          selectedRows := [], findLineEdit := wideQuery }).2 = .found 0 wideQuery ∧
      contains asciiFold ['x'] wideQuery = false ∧
      (findDataSLOT asciiFold
        { model := [⟨['1'], wideQuery, [], [], [], []⟩], currentIndex := none,
          selectedRows := [], findLineEdit := wideQuery }).2 = .notFound ∧
      contains asciiFold wideQuery wideQuery = true :=
  ⟨by decide, by decide, by decide, by decide, by decide, by decide, by decide⟩

/-- C6, amended: for every table and every query whose trimmed form is not
empty, find searches the id column when the trimmed query is longer than 5
UTF-16 code units (its `QString` length; this is its number of characters
when all of them lie in the Basic Multilingual Plane) and the name column
otherwise; it reports `found i v` exactly for the first row `i` whose
text `v` in that column contains the trimmed query, case ignored, and makes
that cell current; it reports `notFound` exactly when no row matches, and
then the table, the current index and the selection are unchanged. On the
example table "12345ab" is searched among the ids and "Li" among the names. -/
theorem find_heuristic_and_first_match (fold : Char → Char) (s : Form)
    (hq : trimmed s.findLineEdit ≠ []) :
    (searchColumn (trimmed s.findLineEdit)
        = if utf16Length (trimmed s.findLineEdit) > 5 then 0 else 1) ∧
      (inBMP (trimmed s.findLineEdit) →
        searchColumn (trimmed s.findLineEdit)
          = if (trimmed s.findLineEdit).length > 5 then 0 else 1) ∧
      (∀ i v, (findDataSLOT fold s).2 = .found i v ↔
        firstMatch fold (trimmed s.findLineEdit) (searchColumn (trimmed s.findLineEdit))
          s.model i v) ∧
      (∀ i v, (findDataSLOT fold s).2 = .found i v →
        (findDataSLOT fold s).1.currentIndex
            = some (i, searchColumn (trimmed s.findLineEdit)) ∧
          (findDataSLOT fold s).1.model = s.model) ∧
      ((findDataSLOT fold s).2 = .notFound ↔
        ∀ (i : Nat) (ri : Record), s.model[i]? = some ri →
          ¬ matchesQuery fold (trimmed s.findLineEdit)
            (ri.item (searchColumn (trimmed s.findLineEdit)))) ∧
      ((findDataSLOT fold s).2 = .notFound →
        (findDataSLOT fold s).1.model = s.model ∧
          (findDataSLOT fold s).1.currentIndex = s.currentIndex ∧
          (findDataSLOT fold s).1.selectedRows = s.selectedRows) ∧
      (findDataSLOT fold s).2 ≠ .emptyQuery ∧
      (searchColumn (trimmed "12345ab".toList) = 0 ∧ searchColumn (trimmed "Li".toList) = 1 ∧
        (findDataSLOT asciiFold { formOf exampleStore with findLineEdit := "12345ab".toList }).2
          = .notFound ∧
        (findDataSLOT asciiFold { formOf exampleStore with findLineEdit := "Li".toList }).2
          = .found 0 "Alice".toList) := by
  have hform := findDataSLOT_eq fold s hq
  have hcol : searchColumn (trimmed s.findLineEdit) < columnCount := by
    unfold searchColumn columnCount
    split <;> omega
  refine ⟨rfl, ?_, ?_, ?_, ?_, ?_, ?_, by decide, by decide, by decide, by decide⟩
  · intro hb
    unfold searchColumn
    rw [utf16Length_of_inBMP _ hb]
  · intro i v
    rw [← findLoop_eq_some_iff, hform]
    cases hf : findLoop fold (trimmed s.findLineEdit)
        (searchColumn (trimmed s.findLineEdit)) 0 s.model with
    | none => simp
    | some res =>
      obtain ⟨i2, v2⟩ := res
      simp
  · intro i v
    rw [hform]
    cases hf : findLoop fold (trimmed s.findLineEdit)
        (searchColumn (trimmed s.findLineEdit)) 0 s.model with
    | none => simp
    | some res =>
      obtain ⟨i2, v2⟩ := res
      obtain ⟨j, rj, hrow, hj, _⟩ := findLoop_eq_some fold _ _ s.model 0 i2 v2 hf
      have hlt : i2 < s.rowCount := by
        have := (List.getElem?_eq_some.mp hj).1
        unfold Form.rowCount
        omega
      simp only [FindOutcome.found.injEq, and_imp]
      rintro rfl rfl
      simp [Form.setCurrentIndex, Form.index, hlt, hcol]
  · rw [hform, ← findLoop_eq_none fold _ _ s.model 0]
    cases hf : findLoop fold (trimmed s.findLineEdit)
        (searchColumn (trimmed s.findLineEdit)) 0 s.model with
    | none => simp
    | some res =>
      obtain ⟨i2, v2⟩ := res
      simp
  · rw [hform]
    cases hf : findLoop fold (trimmed s.findLineEdit)
        (searchColumn (trimmed s.findLineEdit)) 0 s.model with
    | none => simp
    | some res =>
      obtain ⟨i2, v2⟩ := res
      simp
  · rw [hform]
    cases hf : findLoop fold (trimmed s.findLineEdit)
        (searchColumn (trimmed s.findLineEdit)) 0 s.model with
    | none => simp
    | some res =>
      obtain ⟨i2, v2⟩ := res
      simp

/-- C6, amended, on the example table with " bo " in the find box: the
trimmed query "bo", two characters of the Basic Multilingual Plane, is
searched among the names and found in row 1, "Bob". -/
theorem find_heuristic_and_first_match_witness :
    trimmed " bo ".toList ≠ [] ∧ inBMP (trimmed " bo ".toList) ∧
      searchColumn (trimmed " bo ".toList) = 1 ∧
      (findDataSLOT asciiFold { formOf exampleStore with findLineEdit := " bo ".toList }).2
        = .found 1 "Bob".toList ∧
      firstMatch asciiFold (trimmed " bo ".toList) 1 exampleStore 1 "Bob".toList ∧
      (findDataSLOT asciiFold { formOf exampleStore with findLineEdit := " bo ".toList }).1.currentIndex
        = some (1, 1) :=
  have hb : inBMP (trimmed " bo ".toList) := by
    unfold inBMP
    decide
  have h := find_heuristic_and_first_match asciiFold
    { formOf exampleStore with findLineEdit := " bo ".toList } (by decide)
  ⟨by decide, hb, h.2.1 hb, by decide, (h.2.2.1 1 "Bob".toList).mp (by decide),
    (h.2.2.2.1 1 "Bob".toList (by decide)).1⟩

end GDOU
